import Mathlib

/-! # Decision-maker service: pod discovery, intent resolution, metric snapshot

A shallow embedding of `decisionmaker/service/service.go` and
`decisionmaker/service/metric_collector.go`.

Conventions of the embedding:

* a Go `string` is a list of characters (`Str`); the inputs are taken to be valid UTF-8, and
  every separator and literal the code looks for is ASCII, so splitting and searching by
  character agrees with Go's byte-wise functions;
* Go `int` is 64 bits wide; values are `Int`, and range checks are explicit;
* a Go `map[string]V` is an association list with pairwise distinct keys (`GoMap`), read with
  `mapGet` and written with `mapSet`; the order of the list carries no meaning;
* the host file system is a parameter (`FileSystem`);
* logging calls are dropped: they do not influence any result.
-/

namespace DecisionMaker

/-! ## Strings -/

/-- Go `string`, as a list of characters. -/
abbrev Str := List Char

/-- Go map with string keys, as an association list. -/
abbrev GoMap (β : Type) := List (Str × β)

/-- Go `m[k]` with the comma-ok form: the value stored under `k`, if any. -/
def mapGet {β : Type} : GoMap β → Str → Option β
  | [], _ => none
  | (k, v) :: rest, key => if k = key then some v else mapGet rest key

/-- Go `m[k] = v`: replaces the value under `k`, or adds the key. -/
def mapSet {β : Type} : GoMap β → Str → β → GoMap β
  | [], key, val => [(key, val)]
  | (k, v) :: rest, key, val =>
    if k = key then (k, val) :: rest else (k, v) :: mapSet rest key val

/-- The keys of a map. -/
def mapKeys {β : Type} (m : GoMap β) : List Str := m.map Prod.fst

/-- Go `strings.Split(s, sep)` for a one-character separator. The result is never empty. -/
def Split : Str → Char → List Str
  | [], _ => [[]]
  | c :: cs, sep =>
    if c = sep then [] :: Split cs sep
    else
      match Split cs sep with
      | [] => [[c]]
      | h :: t => (c :: h) :: t

/-- Go `strings.HasPrefix`. -/
def HasPrefix (s pre : Str) : Bool := pre.isPrefixOf s

/-- Go `strings.HasSuffix`. -/
def HasSuffix (s suf : Str) : Bool := suf.isSuffixOf s

/-- Go `strings.TrimPrefix`. -/
def TrimPrefix (s pre : Str) : Str := if HasPrefix s pre then s.drop pre.length else s

/-- Go `strings.TrimSuffix`. -/
def TrimSuffix (s suf : Str) : Str :=
  if HasSuffix s suf then s.take (s.length - suf.length) else s

/-- Go `strings.Contains`. -/
def Contains : Str → Str → Bool
  | [], sub => HasPrefix [] sub
  | c :: cs, sub => HasPrefix (c :: cs) sub || Contains cs sub

/-- Go `strings.ReplaceAll(s, old, new)` for one-character `old` and `new`. -/
def ReplaceAll (s : Str) (old new : Char) : Str := s.map (fun c => if c = old then new else c)

/-- Go `unicode.IsSpace`. -/
def isSpace (c : Char) : Bool :=
  let n := c.toNat
  (9 ≤ n && n ≤ 13) || n = 32 || n = 0x85 || n = 0xA0 || n = 0x1680 ||
  (0x2000 ≤ n && n ≤ 0x200A) || n = 0x2028 || n = 0x2029 || n = 0x202F ||
  n = 0x205F || n = 0x3000

/-- Go `strings.TrimSpace`. -/
def TrimSpace (s : Str) : Str :=
  ((s.dropWhile isSpace).reverse.dropWhile isSpace).reverse

/-- Loop of `strings.Fields`: `cur` is the field being read, reversed. -/
def fieldsAux : Str → Str → List Str
  | [], cur => if cur.isEmpty then [] else [cur.reverse]
  | c :: cs, cur =>
    if isSpace c then
      if cur.isEmpty then fieldsAux cs [] else cur.reverse :: fieldsAux cs []
    else fieldsAux cs (c :: cur)

/-- Go `strings.Fields`. -/
def Fields (s : Str) : List Str := fieldsAux s []

/-! ## Integers and text -/

/-- Smallest Go `int` (64-bit). -/
def minInt : Int := -(2 ^ 63)

/-- Largest Go `int` (64-bit). -/
def maxInt : Int := 2 ^ 63 - 1

/-- An ASCII decimal digit. -/
def isDigit (c : Char) : Bool := 48 ≤ c.toNat && c.toNat ≤ 57

/-- Value of a string of decimal digits, most significant first. -/
def digitsValue (ds : Str) : Nat := ds.foldl (fun acc c => acc * 10 + (c.toNat - 48)) 0

/-- Go `strconv.Atoi`: an optional sign, then one or more decimal digits, the value within the
range of `int`. Anything else is an error. -/
def Atoi (s : Str) : Except String Int :=
  let neg : Bool := s.head? = some '-'
  let ds : Str := if s.head? = some '-' ∨ s.head? = some '+' then s.drop 1 else s
  if ds.isEmpty then .error "invalid syntax"
  else if ds.all isDigit then
    let v : Int := if neg then -(digitsValue ds : Int) else (digitsValue ds : Int)
    if minInt ≤ v ∧ v ≤ maxInt then .ok v else .error "value out of range"
  else .error "invalid syntax"

/-- Verb `%d` of Go `fmt.Sprintf` on an `int`. -/
def formatInt : Int → Str
  | Int.ofNat n => Nat.toDigits 10 n
  | Int.negSucc n => '-' :: Nat.toDigits 10 (n + 1)

/-! ## The pod pattern

`podRegex = regexp.MustCompile("pod([0-9a-fA-F_]+)(?:\\.slice)?")`. Go's `regexp` returns the
leftmost match and, at that position, prefers the greedy alternative: the group takes the
longest run of class characters, and the optional `.slice` is taken when present. -/

/-- The character class `[0-9a-fA-F_]`. -/
def isPodUIDChar (c : Char) : Bool :=
  let n := c.toNat
  (48 ≤ n && n ≤ 57) || (97 ≤ n && n ≤ 102) || (65 ≤ n && n ≤ 70) || n = 95

/-- The pattern matched at the very start of `s`: the whole match and the group. -/
def podRegexMatchAt (s : Str) : Option (List Str) :=
  if HasPrefix s "pod".toList then
    let rest := s.drop 3
    let grp := rest.takeWhile isPodUIDChar
    if grp.isEmpty then none
    else
      let tail := rest.dropWhile isPodUIDChar
      let slice := if HasPrefix tail ".slice".toList then ".slice".toList else []
      some ["pod".toList ++ grp ++ slice, grp]
  else none

/-- Go `podRegex.FindStringSubmatch`: the leftmost match, `none` for Go's `nil`. -/
def podRegexFindStringSubmatch : Str → Option (List Str)
  | [] => podRegexMatchAt []
  | c :: cs =>
    match podRegexMatchAt (c :: cs) with
    | some m => some m
    | none => podRegexFindStringSubmatch cs

/-- Go `podRegex.MatchString`. -/
def podRegexMatchString (s : Str) : Bool := (podRegexFindStringSubmatch s).isSome

/-! ## Pod and container identity from a hierarchy path -/

/-- Body of the loop of `getPodInfoFromCgroup` (service.go 198-207): the state is
`(podUID, containerID)`. -/
def getPodInfoFromCgroup.step (acc : Str × Str) (part : Str) : Str × Str :=
  let podUID :=
    if podRegexMatchString part then
      ReplaceAll (((podRegexFindStringSubmatch part).getD []).getD 1 []) '_' '-'
    else acc.1
  let containerID :=
    if HasPrefix part "cri-containerd-".toList && HasSuffix part ".scope".toList then
      TrimSuffix (TrimPrefix part "cri-containerd-".toList) ".scope".toList
    else acc.2
  (podUID, containerID)

/-- Source `getPodInfoFromCgroup` (service.go 194-214): `(podUID, containerID)` or an error. -/
def getPodInfoFromCgroup (cgroupPath : Str) : Except String (Str × Str) :=
  let parts := Split cgroupPath '/'
  let acc := parts.foldl getPodInfoFromCgroup.step ([], [])
  if acc.1 = [] then .error "pod UID not found in cgroup path"
  else .ok (acc.1, acc.2)

/-! ## Domain records

The package `decisionmaker/domain` is not among the sources; the records below carry the
fields that `service.go` reads and writes, with the types the specification gives them. -/

/-- Modelled from the spec: `domain.PodProcess` (package `domain` is missing) with the fields
`PID`, `PPID`, `Command`, `ContainerID`. -/
structure PodProcess where
  PID : Int
  PPID : Int
  Command : Str
  ContainerID : Str
  deriving DecidableEq

/-- Modelled from the spec: `domain.PodInfo` (package `domain` is missing): the pod UID and
the list of its processes. -/
structure PodInfo where
  PodUID : Str
  Processes : List PodProcess
  deriving DecidableEq

/-- Modelled from the spec: `domain.LabelSelector` (package `domain` is missing). -/
structure LabelSelector where
  Key : Str
  Value : Str
  deriving DecidableEq

/-- Modelled from the spec: `domain.Intent` (package `domain` is missing). `Priority` and
`ExecutionTime` are signed integers; `PodLabels` is a Go map, given here as the list of its
entries in the order in which the `range` loop of `ProcessIntents` visits them. -/
structure Intent where
  PodName : Str
  PodID : Str
  NodeID : Str
  Priority : Int
  ExecutionTime : Int
  CommandRegex : Str
  PodLabels : List (Str × Str)
  deriving DecidableEq

/-- Modelled from the spec: `domain.SchedulingIntents` (package `domain` is missing).
`ExecutionTime` is a `uint64`. -/
structure SchedulingIntents where
  Priority : Bool
  ExecutionTime : Nat
  PID : Int
  CommandRegex : Str
  Selectors : List LabelSelector
  deriving DecidableEq

/-- Modelled from the spec: `domain.MetricSet` (package `domain` is missing): eleven `uint64`
counters, named as `metric_collector.go` reads them. -/
structure MetricSet where
  UserSchedLastRunAt : Nat
  NrQueued : Nat
  NrScheduled : Nat
  NrRunning : Nat
  NrOnlineCPUs : Nat
  NrUserDispatches : Nat
  NrKernelDispatches : Nat
  NrCancelDispatches : Nat
  NrBounceDispatches : Nat
  NrFailedDispatches : Nat
  NrSchedCongested : Nat
  deriving DecidableEq

/-! ## The host file system -/

/-- One entry of a directory listing (`os.DirEntry`): its name and whether it is a directory. -/
structure DirEntry where
  Name : Str
  IsDir : Bool
  deriving DecidableEq

/-- The part of the host that the service reads. `none` stands for a call that returns an
error. `Open` gives the lines that a `bufio.Scanner` over the opened file delivers, in order. -/
structure FileSystem where
  ReadDir : Str → Option (List DirEntry)
  Open : Str → Option (List Str)
  ReadFile : Str → Option Str

/-- The constant `procDir`. -/
def procDir : Str := "/proc".toList

/-- The constant `pauseCommand`. -/
def pauseCommand : Str := "pause".toList

/-! ## Process information -/

/-- Source `getProcessInfo` (service.go 217-238). -/
def getProcessInfo (fs : FileSystem) (rootDir : Str) (pid : Int) : Except String PodProcess :=
  let process : PodProcess := { PID := pid, PPID := 0, Command := [], ContainerID := [] }
  let commPath := "/".toList ++ rootDir ++ "/".toList ++ formatInt pid ++ "/comm".toList
  let process :=
    match fs.ReadFile commPath with
    | some data => { process with Command := TrimSpace data }
    | none => process
  let statPath := "/".toList ++ rootDir ++ "/".toList ++ formatInt pid ++ "/stat".toList
  let process :=
    match fs.ReadFile statPath with
    | some data =>
      let fields := Fields data
      if fields.length ≥ 4 then
        match Atoi (fields.getD 3 []) with
        | .ok ppid => { process with PPID := ppid }
        | .error _ => process
      else process
    | none => process
  .ok process

/-! ## Discovery -/

/-- Source `parseCgroupToPodInfo` (service.go 158-187). The pod map is updated in place by the
source; here the map after the call is returned next to the error result. -/
def parseCgroupToPodInfo (fs : FileSystem) (rootDir : Str) (line : Str) (pid : Int)
    (podInfoMap : GoMap PodInfo) : Except String Unit × GoMap PodInfo :=
  let parts := Split line ':'
  if parts.length ≥ 3 then
    let cgroupHierarchy := parts.getD 2 []
    match getPodInfoFromCgroup cgroupHierarchy with
    | .error err => (.error err, podInfoMap)
    | .ok (podUID, containerID) =>
      match getProcessInfo fs rootDir pid with
      | .error err => (.error err, podInfoMap)
      | .ok process =>
        let process := { process with ContainerID := containerID }
        match mapGet podInfoMap podUID with
        | some podInfo =>
          (.ok (), mapSet podInfoMap podUID
            { podInfo with Processes := podInfo.Processes ++ [process] })
        | none =>
          (.ok (), mapSet podInfoMap podUID { PodUID := podUID, Processes := [process] })
  else (.ok (), podInfoMap)

/-- The scanner loop of `FindPodInfoFrom` (service.go 138-148) over the lines of one
control-group file: a line containing `kubepods` is parsed, and the first parse error ends
the loop. -/
def scanCgroupLines (fs : FileSystem) (rootDir : Str) (pid : Int) :
    GoMap PodInfo → List Str → GoMap PodInfo
  | podMap, [] => podMap
  | podMap, line :: rest =>
    if Contains line "kubepods".toList then
      match parseCgroupToPodInfo fs rootDir line pid podMap with
      | (.error _, podMap1) => podMap1
      | (.ok _, podMap1) => scanCgroupLines fs rootDir pid podMap1 rest
    else scanCgroupLines fs rootDir pid podMap rest

/-- Body of the loop over the directory entries in `FindPodInfoFrom` (service.go 118-152). -/
def scanEntry (fs : FileSystem) (rootDir : Str) (podMap : GoMap PodInfo) (entry : DirEntry) :
    GoMap PodInfo :=
  if !entry.IsDir then podMap
  else
    match Atoi entry.Name with
    | .error _ => podMap
    | .ok pid =>
      let cgroupPath := rootDir ++ "/".toList ++ formatInt pid ++ "/cgroup".toList
      match fs.Open cgroupPath with
      | none => podMap
      | some lines => scanCgroupLines fs rootDir pid podMap lines

/-- Source `FindPodInfoFrom` (service.go 109-155). -/
def FindPodInfoFrom (fs : FileSystem) (rootDir : Str) : Except String (GoMap PodInfo) :=
  match fs.ReadDir rootDir with
  | none => .error "failed to read /proc directory"
  | some entries => .ok (entries.foldl (scanEntry fs rootDir) [])

/-- Source `GetAllPodInfos` (service.go 104-106). -/
def GetAllPodInfos (fs : FileSystem) : Except String (GoMap PodInfo) :=
  FindPodInfoFrom fs procDir

/-! ## The intent store and the metric snapshot -/

/-- Modelled from the spec: `util.GenericMap[string, []*domain.SchedulingIntents]` (package
`pkg/util` is missing): a keyed store of lists of scheduling intents. -/
abbrev GenericMap := GoMap (List SchedulingIntents)

/-- Modelled from the spec: `util.NewGenericMap` (package `pkg/util` is missing): the empty
store. -/
def NewGenericMap : GenericMap := []

/-- Modelled from the spec: `GenericMap.Store` (package `pkg/util` is missing): replaces the
entire list at `key`; the new value fully supersedes the old. -/
def GenericMap.Store (m : GenericMap) (key : Str) (value : List SchedulingIntents) :
    GenericMap :=
  mapSet m key value

/-- Source `MetricCollector` (metric_collector.go 15-31): the machine id and the atomic pointer
`metricSet`, `none` for the nil pointer. The Prometheus descriptors are left out. -/
structure MetricCollector where
  machineID : Str
  metricSet : Option MetricSet
  deriving DecidableEq

/-- Source `NewMetricCollector` (metric_collector.go 34-105): the pointer starts as nil. -/
def NewMetricCollector (machineID : Str) : MetricCollector :=
  { machineID := machineID, metricSet := none }

/-- Source `MetricCollector.UpdateMetrics` (metric_collector.go 142-144). -/
def MetricCollector.UpdateMetrics (collector : MetricCollector)
    (newMetricSet : Option MetricSet) : MetricCollector :=
  { collector with metricSet := newMetricSet }

/-- Source `MetricCollector.GetMetrics` (metric_collector.go 147-149). -/
def MetricCollector.GetMetrics (collector : MetricCollector) : Option MetricSet :=
  collector.metricSet

/-- Source `Service` (service.go 44-49), without the token fields. -/
structure Service where
  schedulingIntentsMap : GenericMap
  metricCollector : MetricCollector

/-- Source `Service.UpdateMetrics` (service.go 240-242). -/
def Service.UpdateMetrics (svc : Service) (newMetricSet : Option MetricSet) : Service :=
  { svc with metricCollector := svc.metricCollector.UpdateMetrics newMetricSet }

/-- Source `Service.GetMetrics` (service.go 245-247). -/
def Service.GetMetrics (svc : Service) : Option MetricSet :=
  svc.metricCollector.GetMetrics

/-! ## Intent resolution -/

/-- The key `fmt.Sprintf("%s-%d", intent.PodID, process.PID)` (service.go 95). -/
def intentKey (podID : Str) (pid : Int) : Str := podID ++ "-".toList ++ formatInt pid

/-- The labels built by the loop at service.go 75-81. -/
def intentLabels (intent : Intent) : List LabelSelector :=
  intent.PodLabels.foldl (fun labels kv => labels ++ [{ Key := kv.1, Value := kv.2 }]) []

/-- The record built at service.go 87-93. `uint64(x)` keeps `x` modulo `2 ^ 64`. -/
def newSchedulingIntent (intent : Intent) (labels : List LabelSelector)
    (process : PodProcess) : SchedulingIntents :=
  { Priority := decide (intent.Priority > 0)
    ExecutionTime := (intent.ExecutionTime % 2 ^ 64).toNat
    PID := process.PID
    CommandRegex := intent.CommandRegex
    Selectors := labels }

/-- Body of the loop over the processes of the matched pod (service.go 83-96). -/
def processStep (intent : Intent) (labels : List LabelSelector) (store : GenericMap)
    (process : PodProcess) : GenericMap :=
  if process.Command = pauseCommand then store
  else
    GenericMap.Store store (intentKey intent.PodID process.PID)
      [newSchedulingIntent intent labels process]

/-- Body of the loop over the intents (service.go 72-98). -/
def intentStep (podInfos : GoMap PodInfo) (store : GenericMap) (intent : Intent) :
    GenericMap :=
  let labels := intentLabels intent
  match mapGet podInfos intent.PodID with
  | some podInfo =>
    if podInfo.Processes.length > 0 then
      podInfo.Processes.foldl (processStep intent labels) store
    else store
  | none => store

/-- Source `ProcessIntents` (service.go 67-101): the error result and the service after the
call. -/
def ProcessIntents (fs : FileSystem) (svc : Service) (intents : List Intent) :
    Except String Unit × Service :=
  match GetAllPodInfos fs with
  | .error err => (.error err, svc)
  | .ok podInfos =>
    (.ok (), { svc with
      schedulingIntentsMap := intents.foldl (intentStep podInfos) svc.schedulingIntentsMap })

/-! ## Call sequences on the metric collector -/

/-- A call on the collector: an update with its argument, or a read. -/
inductive MetricCall where
  | update (newMetricSet : Option MetricSet)
  | get
  deriving DecidableEq

/-- Runs the calls in order; returns the collector afterwards and what each `get` returned. -/
def runMetricCalls : MetricCollector → List MetricCall → MetricCollector × List (Option MetricSet)
  | collector, [] => (collector, [])
  | collector, MetricCall.update m :: rest => runMetricCalls (collector.UpdateMetrics m) rest
  | collector, MetricCall.get :: rest =>
    let r := runMetricCalls collector rest
    (r.1, collector.GetMetrics :: r.2)

/-- Number of reads among the calls. -/
def countGets (calls : List MetricCall) : Nat :=
  (calls.filter (fun c => decide (c = MetricCall.get))).length

/-- The argument of an update call. -/
def MetricCall.updateArg (c : MetricCall) : Option (Option MetricSet) :=
  match c with
  | MetricCall.update m => some m
  | MetricCall.get => none

/-- What the claim says a read returns after the calls `pre`: nil when no update precedes it,
otherwise the argument of the most recent preceding update. -/
def expectedRead (pre : List MetricCall) : Option MetricSet :=
  match (pre.filterMap MetricCall.updateArg).getLast? with
  | none => none
  | some m => m

/-! ## Shapes used in the statements -/

/-- A hexadecimal digit. -/
def isHexDigit (c : Char) : Bool :=
  let n := c.toNat
  (48 ≤ n && n ≤ 57) || (97 ≤ n && n ≤ 102) || (65 ≤ n && n ≤ 70)

/-- A non-empty string of hexadecimal digits. -/
def isHexString (s : Str) : Bool := !s.isEmpty && s.all isHexDigit

/-- A path segment with prefix `cri-containerd-` and suffix `.scope`. -/
def isContainerSegment (part : Str) : Bool :=
  HasPrefix part "cri-containerd-".toList && HasSuffix part ".scope".toList

/-- The text `h1_h2_h3_h4_h5`. -/
def joinUnderscore (h1 h2 h3 h4 h5 : Str) : Str :=
  h1 ++ '_' :: (h2 ++ '_' :: (h3 ++ '_' :: (h4 ++ '_' :: h5)))

/-- The text `h1-h2-h3-h4-h5`. -/
def joinHyphen (h1 h2 h3 h4 h5 : Str) : Str :=
  h1 ++ '-' :: (h2 ++ '-' :: (h3 ++ '-' :: (h4 ++ '-' :: h5)))

/-- The segment contains `pod` followed by at least one hexadecimal digit or underscore. -/
def ContainsPodMarker (seg : Str) : Prop :=
  ∃ (a : Str) (c : Char) (b : Str), seg = a ++ 'p' :: 'o' :: 'd' :: c :: b ∧ isPodUIDChar c = true

/-- Every process recorded in the pod map has a PID satisfying `P`. -/
def AllPIDs (P : Int → Prop) (m : GoMap PodInfo) : Prop :=
  ∀ kv ∈ m, ∀ p ∈ kv.2.Processes, P p.PID

/-! ## Concrete inputs -/

/-- The hierarchy path of the worked example. -/
def examplePath : Str :=
  ("/kubelet.slice/kubelet-kubepods.slice/" ++
   "kubelet-kubepods-pod20da609e_6973_4463_a1f9_2db9bcc5becc.slice/" ++
   "cri-containerd-10ec3c89629f71226b227e6510b2d465168b24005bbdcc5d7940517080830635.scope").toList

/-- The control-group line of the worked example. -/
def exampleLine : Str := "0::".toList ++ examplePath

/-- The pod UID of the worked example. -/
def exampleUID : Str := "20da609e-6973-4463-a1f9-2db9bcc5becc".toList

/-- The container ID of the worked example. -/
def exampleContainerID : Str :=
  "10ec3c89629f71226b227e6510b2d465168b24005bbdcc5d7940517080830635".toList

/-- A path in which a well-formed pod segment is followed by another segment that the pod
pattern matches. -/
def pathWithLaterPodSegment : Str := "/kubepods-pod1_2_3_4_5.slice/podab".toList

/-- A path whose pod segment carries a prefix that the pod pattern already matches. -/
def pathWithPodInPrefix : Str := "/podded-pod1_2_3_4_5.slice".toList

/-- A path with a pod segment and the container segment `cri-containerd-.scope`. -/
def pathWithEmptyContainerID : Str := "/pod1/cri-containerd-.scope".toList

/-- A host on which every call fails. -/
def emptyFS : FileSystem :=
  { ReadDir := fun _ => none, Open := fun _ => none, ReadFile := fun _ => none }

/-- A process table with four processes of the pod of the worked example (PIDs 10, 7, 8
and 9, in the order of the listing), process 8 being the pause process, and two entries that
are not processes. -/
def exampleFS : FileSystem :=
  { ReadDir := fun d =>
      if d = procDir then
        some [⟨"10".toList, true⟩, ⟨"7".toList, true⟩, ⟨"8".toList, true⟩, ⟨"9".toList, true⟩,
          ⟨"acpi".toList, true⟩, ⟨"uptime".toList, false⟩]
      else none
    Open := fun p =>
      if p = "/proc/10/cgroup".toList ∨ p = "/proc/7/cgroup".toList ∨
          p = "/proc/8/cgroup".toList ∨ p = "/proc/9/cgroup".toList then
        some [exampleLine]
      else none
    ReadFile := fun p =>
      if p = "//proc/7/comm".toList then some "nginx\n".toList
      else if p = "//proc/8/comm".toList then some "pause\n".toList
      else if p = "//proc/7/stat".toList then some "7 (nginx) S 1 7 7 0 -1 4194560".toList
      else none }

/-- The process record that discovery builds on `exampleFS` for a PID. -/
def exampleProcess (pid ppid : Int) (command : Str) : PodProcess :=
  { PID := pid, PPID := ppid, Command := command, ContainerID := exampleContainerID }

/-- The pod record that discovery builds on `exampleFS`. -/
def exampleInfo : PodInfo :=
  { PodUID := exampleUID
    Processes := [exampleProcess 10 0 [], exampleProcess 7 1 "nginx".toList,
      exampleProcess 8 0 "pause".toList, exampleProcess 9 0 []] }

/-- An intent for the pod of the worked example. -/
def exampleIntent : Intent :=
  { PodName := "web".toList, PodID := exampleUID, NodeID := "node-1".toList, Priority := 5,
    ExecutionTime := 20000, CommandRegex := "nginx.*".toList,
    PodLabels := [("app".toList, "web".toList), ("tier".toList, "front".toList)] }

/-- An intent for a pod that is not discovered on `exampleFS`. -/
def strayIntent : Intent :=
  { PodName := "db".toList, PodID := "0000-1111".toList, NodeID := "node-1".toList,
    Priority := 1, ExecutionTime := 5, CommandRegex := [], PodLabels := [] }

/-- A service with an empty intent store and a fresh metric collector. -/
def emptyService : Service :=
  { schedulingIntentsMap := NewGenericMap, metricCollector := NewMetricCollector [] }

/-- A process table with one process, 7, whose control-group file has two lines of the pod
hierarchy, as under control groups v1. -/
def twoLineFS : FileSystem :=
  { ReadDir := fun d => if d = procDir then some [⟨"7".toList, true⟩] else none
    Open := fun p =>
      if p = "/proc/7/cgroup".toList then
        some ["12:pids:/kubepods.slice/kubepods-pod1_2_3_4_5.slice".toList,
          "11:memory:/kubepods.slice/kubepods-pod1_2_3_4_5.slice".toList]
      else none
    ReadFile := fun _ => none }

/-- An intent for the pod `1-2-3-4-5`. -/
def smallIntent : Intent :=
  { PodName := "p".toList, PodID := "1-2-3-4-5".toList, NodeID := "n".toList, Priority := 5,
    ExecutionTime := 1, CommandRegex := [], PodLabels := [] }

/-- A process table with the directories `-5` and `5`: process -5 belongs to the pod `1`,
process 5 to the pod `1-`. -/
def signedFS : FileSystem :=
  { ReadDir := fun d =>
      if d = procDir then some [⟨"-5".toList, true⟩, ⟨"5".toList, true⟩] else none
    Open := fun p =>
      if p = "/proc/-5/cgroup".toList then some ["0::/kubepods-pod1".toList]
      else if p = "/proc/5/cgroup".toList then some ["0::/kubepods-pod1_".toList]
      else none
    ReadFile := fun _ => none }

/-- An intent for the pod `1`, with priority 5. -/
def intentPodOne : Intent :=
  { PodName := "a".toList, PodID := "1".toList, NodeID := "n".toList, Priority := 5,
    ExecutionTime := 1, CommandRegex := "a".toList, PodLabels := [] }

/-- An intent for the pod `1-`, with priority 0. -/
def intentPodOneHyphen : Intent :=
  { PodName := "b".toList, PodID := "1-".toList, NodeID := "n".toList, Priority := 0,
    ExecutionTime := 2, CommandRegex := "b".toList, PodLabels := [] }

/-- A process table with one process, 7, whose control-group file has a well-formed pod line
followed by a `kubepods` line without a pod segment. -/
def failingLineFS : FileSystem :=
  { ReadDir := fun d => if d = procDir then some [⟨"7".toList, true⟩] else none
    Open := fun p =>
      if p = "/proc/7/cgroup".toList then
        some ["1:name=systemd:/kubepods-pod1_2_3_4_5.slice".toList, "0::/kubepods".toList]
      else none
    ReadFile := fun _ => none }

/-- The same process table with the two lines in the other order. -/
def failingFirstFS : FileSystem :=
  { ReadDir := fun d => if d = procDir then some [⟨"7".toList, true⟩] else none
    Open := fun p =>
      if p = "/proc/7/cgroup".toList then
        some ["0::/kubepods".toList, "1:name=systemd:/kubepods-pod1_2_3_4_5.slice".toList]
      else none
    ReadFile := fun _ => none }

/-- A listing with the directory names `-5`, `0`, `007`, `7` and `acpi`; the control-group
files of the directories `-5`, `0` and `7` name the pod `1-2-3-4-5`. -/
def oddNamesFS : FileSystem :=
  { ReadDir := fun d =>
      if d = procDir then
        some [⟨"-5".toList, true⟩, ⟨"0".toList, true⟩, ⟨"007".toList, true⟩,
          ⟨"7".toList, true⟩, ⟨"acpi".toList, true⟩]
      else none
    Open := fun p =>
      if p = "/proc/-5/cgroup".toList ∨ p = "/proc/0/cgroup".toList ∨
          p = "/proc/7/cgroup".toList then
        some ["0::/kubepods-pod1_2_3_4_5.slice".toList]
      else none
    ReadFile := fun _ => none }

/-- A process with the given PID and nothing else known. -/
def bareProcess (pid : Int) : PodProcess :=
  { PID := pid, PPID := 0, Command := [], ContainerID := [] }

/-- The processes of a pod whose `Command` is not the pause command. -/
def nonPauseProcesses (info : PodInfo) : List PodProcess :=
  info.Processes.filter (fun p => decide (p.Command ≠ pauseCommand))

/-- The entries that the loop of `FindPodInfoFrom` does not skip: directories whose name
`strconv.Atoi` accepts. -/
def acceptedEntry (e : DirEntry) : Bool :=
  e.IsDir &&
    (match Atoi e.Name with
     | .ok _ => true
     | .error _ => false)

/-- The path `fmt.Sprintf("%s/%d/cgroup", rootDir, pid)` that `FindPodInfoFrom` opens
(service.go 131). -/
def cgroupPath (rootDir : Str) (pid : Int) : Str :=
  rootDir ++ "/".toList ++ formatInt pid ++ "/cgroup".toList

/-- The path `fmt.Sprintf("/%s/%d/comm", rootDir, pid)` that `getProcessInfo` reads
(service.go 221). -/
def commPath (rootDir : Str) (pid : Int) : Str :=
  "/".toList ++ rootDir ++ "/".toList ++ formatInt pid ++ "/comm".toList

/-- The path `fmt.Sprintf("/%s/%d/stat", rootDir, pid)` that `getProcessInfo` reads
(service.go 227). -/
def statPath (rootDir : Str) (pid : Int) : Str :=
  "/".toList ++ rootDir ++ "/".toList ++ formatInt pid ++ "/stat".toList

/-- The text `R/p/`: the directory of process `p` under the root `R`. -/
def processDir (rootDir : Str) (pid : Int) : Str :=
  rootDir ++ "/".toList ++ formatInt pid ++ "/".toList

/-- The text `t` is the text `d` without its leading and trailing white space. -/
def IsWhitespaceTrim (t d : Str) : Prop :=
  (∃ l r : Str, d = l ++ t ++ r ∧ (∀ c ∈ l, isSpace c = true) ∧ (∀ c ∈ r, isSpace c = true)) ∧
  (∀ c, t.head? = some c → isSpace c = false) ∧
  (∀ c, t.getLast? = some c → isSpace c = false)

/-- The whitespace-delimited fields of a text: the text is cut at every white-space
character and the empty pieces are dropped. -/
def whitespaceFields (s : Str) : List Str :=
  (s.splitOnP isSpace).filter (fun f => !f.isEmpty)

/-- A process table under the relative root `testdata`: the directory `testdata/7` holds the
control-group file, the name file (`pause`) and the status file (parent 1) of process 7. -/
def relativeFS : FileSystem :=
  { ReadDir := fun d => if d = "testdata".toList then some [⟨"7".toList, true⟩] else none
    Open := fun p =>
      if p = "testdata/7/cgroup".toList then some ["0::/kubepods-pod1_2_3_4_5.slice".toList]
      else none
    ReadFile := fun p =>
      if p = "testdata/7/comm".toList then some "pause\n".toList
      else if p = "testdata/7/stat".toList then some "7 (pause) S 1 7 7 0".toList
      else none }

/-! ## Basic facts about maps -/

theorem mapGet_cons {β : Type} (k0 : Str) (v0 : β) (tl : GoMap β) (k : Str) :
    mapGet ((k0, v0) :: tl) k = if k0 = k then some v0 else mapGet tl k := rfl

theorem mapSet_cons {β : Type} (k0 : Str) (v0 : β) (tl : GoMap β) (k : Str) (v : β) :
    mapSet ((k0, v0) :: tl) k v =
      if k0 = k then (k0, v) :: tl else (k0, v0) :: mapSet tl k v := rfl

theorem mapGet_mapSet_self {β : Type} (m : GoMap β) (k : Str) (v : β) :
    mapGet (mapSet m k v) k = some v := by
  induction m with
  | nil => simp only [mapSet, mapGet, if_true]
  | cons hd tl ih =>
    obtain ⟨k0, v0⟩ := hd
    rw [mapSet_cons]
    by_cases h : k0 = k
    · rw [if_pos h, mapGet_cons, if_pos h]
    · rw [if_neg h, mapGet_cons, if_neg h, ih]

theorem mapGet_mapSet_other {β : Type} (m : GoMap β) (k k1 : Str) (v : β) (hne : k1 ≠ k) :
    mapGet (mapSet m k v) k1 = mapGet m k1 := by
  induction m with
  | nil =>
    have : ¬ k = k1 := fun h => hne h.symm
    simp only [mapSet, mapGet, this, if_false]
  | cons hd tl ih =>
    obtain ⟨k0, v0⟩ := hd
    rw [mapSet_cons]
    by_cases h : k0 = k
    · have h1 : ¬ k0 = k1 := fun e => hne (e.symm.trans h)
      rw [if_pos h, mapGet_cons, if_neg h1, mapGet_cons, if_neg h1]
    · rw [if_neg h, mapGet_cons, mapGet_cons, ih]

theorem mapKeys_mapSet {β : Type} (m : GoMap β) (k : Str) (v : β) :
    mapKeys (mapSet m k v) = if k ∈ mapKeys m then mapKeys m else mapKeys m ++ [k] := by
  induction m with
  | nil => simp only [mapSet, mapKeys, List.map, List.not_mem_nil, if_false, List.nil_append]
  | cons hd tl ih =>
    obtain ⟨k0, v0⟩ := hd
    rw [mapSet_cons]
    simp only [mapKeys] at ih
    by_cases h : k0 = k
    · subst h
      simp only [if_true, mapKeys, List.map, List.mem_cons, true_or]
    · have h1 : ¬ k = k0 := fun e => h e.symm
      simp only [if_neg h, mapKeys, List.map_cons, ih, List.mem_cons, h1, false_or]
      by_cases hk : k ∈ List.map Prod.fst tl
      · simp only [if_pos hk]
      · simp only [if_neg hk, List.cons_append]

theorem mem_mapSet {β : Type} (m : GoMap β) (k : Str) (v : β) (kv : Str × β)
    (h : kv ∈ mapSet m k v) : kv ∈ m ∨ kv = (k, v) := by
  induction m with
  | nil =>
    simp only [mapSet, List.mem_singleton] at h
    exact Or.inr h
  | cons hd tl ih =>
    obtain ⟨k0, v0⟩ := hd
    rw [mapSet_cons] at h
    by_cases hk : k0 = k
    · subst hk
      rw [if_pos rfl, List.mem_cons] at h
      rcases h with h | h
      · exact Or.inr h
      · exact Or.inl (List.mem_cons_of_mem _ h)
    · rw [if_neg hk, List.mem_cons] at h
      rcases h with h | h
      · exact Or.inl (h ▸ List.mem_cons_self _ _)
      · rcases ih h with h1 | h1
        · exact Or.inl (List.mem_cons_of_mem _ h1)
        · exact Or.inr h1

theorem mem_of_mapGet {β : Type} (m : GoMap β) (k : Str) (v : β)
    (h : mapGet m k = some v) : (k, v) ∈ m := by
  induction m with
  | nil => simp only [mapGet] at h; exact absurd h (by simp)
  | cons hd tl ih =>
    obtain ⟨k0, v0⟩ := hd
    rw [mapGet_cons] at h
    by_cases hk : k0 = k
    · subst hk
      rw [if_pos rfl, Option.some.injEq] at h
      subst h
      exact List.mem_cons_self _ _
    · rw [if_neg hk] at h
      exact List.mem_cons_of_mem _ (ih h)

theorem mapGet_eq_none_iff {β : Type} (m : GoMap β) (k : Str) :
    mapGet m k = none ↔ k ∉ mapKeys m := by
  induction m with
  | nil => simp only [mapGet, mapKeys, List.map, List.not_mem_nil, not_false_eq_true]
  | cons hd tl ih =>
    obtain ⟨k0, v0⟩ := hd
    simp only [mapKeys] at ih
    rw [mapGet_cons]
    by_cases hk : k0 = k
    · subst hk
      simp only [if_true, mapKeys, List.map_cons, List.mem_cons, true_or, not_true_eq_false]
      simp
    · have h1 : ¬ k = k0 := fun e => hk e.symm
      simp only [if_neg hk, mapKeys, List.map_cons, List.mem_cons, h1, false_or, ih]

/-! ## Decimal text of integers -/

theorem digitChar_toNat (k : Nat) (hk : k < 10) : (Nat.digitChar k).toNat = k + 48 := by
  interval_cases k <;> rfl

theorem digitsValue_append_singleton (ds : Str) (c : Char) :
    digitsValue (ds ++ [c]) = digitsValue ds * 10 + (c.toNat - 48) := by
  simp only [digitsValue, List.foldl_append, List.foldl_cons, List.foldl_nil]

theorem toDigitsCore_spec (fuel : Nat) : ∀ (n : Nat) (ds : Str), n < fuel →
    ∃ D : Str, Nat.toDigitsCore 10 fuel n ds = D ++ ds ∧ D ≠ [] ∧
      (∀ c ∈ D, isDigit c = true) ∧ digitsValue D = n := by
  induction fuel with
  | zero => intro n ds h; exact absurd h (Nat.not_lt_zero _)
  | succ fuel ih =>
    intro n ds hn
    have hmod : n % 10 < 10 := Nat.mod_lt _ (by norm_num)
    have hdig : isDigit (Nat.digitChar (n % 10)) = true := by
      simp only [isDigit, digitChar_toNat _ hmod, Bool.and_eq_true, decide_eq_true_eq]
      omega
    by_cases h0 : n / 10 = 0
    · refine ⟨[Nat.digitChar (n % 10)], ?_, by simp, ?_, ?_⟩
      · simp only [Nat.toDigitsCore, h0, if_true, List.singleton_append]
      · intro c hc
        rw [List.mem_singleton] at hc
        rw [hc]; exact hdig
      · simp only [digitsValue, List.foldl_cons, List.foldl_nil, digitChar_toNat _ hmod]
        omega
    · have hlt : n / 10 < fuel := by omega
      obtain ⟨D, hD, -, hall, hval⟩ := ih (n / 10) (Nat.digitChar (n % 10) :: ds) hlt
      refine ⟨D ++ [Nat.digitChar (n % 10)], ?_, by simp, ?_, ?_⟩
      · simp only [Nat.toDigitsCore, h0, if_false, hD, List.append_assoc, List.singleton_append]
      · intro c hc
        rw [List.mem_append, List.mem_singleton] at hc
        rcases hc with hc | hc
        · exact hall c hc
        · rw [hc]; exact hdig
      · rw [digitsValue_append_singleton, hval, digitChar_toNat _ hmod]
        omega

theorem toDigits_spec (n : Nat) :
    Nat.toDigits 10 n ≠ [] ∧ (∀ c ∈ Nat.toDigits 10 n, isDigit c = true) ∧
      digitsValue (Nat.toDigits 10 n) = n := by
  obtain ⟨D, hD, hne, hall, hval⟩ := toDigitsCore_spec (n + 1) n [] (Nat.lt_succ_self n)
  rw [List.append_nil] at hD
  have : Nat.toDigits 10 n = D := hD
  rw [this]
  exact ⟨hne, hall, hval⟩

theorem toDigits_injective (a b : Nat) (h : Nat.toDigits 10 a = Nat.toDigits 10 b) : a = b := by
  have ha := (toDigits_spec a).2.2
  have hb := (toDigits_spec b).2.2
  rw [h] at ha
  exact ha.symm.trans hb

theorem hyphen_not_mem_toDigits (n : Nat) : '-' ∉ Nat.toDigits 10 n := by
  intro h
  have := (toDigits_spec n).2.1 _ h
  revert this
  decide

theorem formatInt_injective (a b : Int) (h : formatInt a = formatInt b) : a = b := by
  cases a with
  | ofNat m =>
    cases b with
    | ofNat n =>
      simp only [formatInt] at h
      rw [toDigits_injective m n h]
    | negSucc n =>
      simp only [formatInt] at h
      exact absurd (h ▸ List.mem_cons_self _ _ : '-' ∈ Nat.toDigits 10 m)
        (hyphen_not_mem_toDigits m)
  | negSucc m =>
    cases b with
    | ofNat n =>
      simp only [formatInt] at h
      exact absurd (h ▸ List.mem_cons_self _ _ : '-' ∈ Nat.toDigits 10 n)
        (hyphen_not_mem_toDigits n)
    | negSucc n =>
      simp only [formatInt, List.cons.injEq, true_and] at h
      have := toDigits_injective _ _ h
      have hmn : m = n := by omega
      rw [hmn]

theorem hyphen_not_mem_formatInt (a : Int) (ha : 0 ≤ a) : '-' ∉ formatInt a := by
  cases a with
  | ofNat m => exact hyphen_not_mem_toDigits m
  | negSucc m => exact absurd ha (by simp)

theorem intentKey_eq (podID : Str) (pid : Int) :
    intentKey podID pid = podID ++ '-' :: formatInt pid := by
  unfold intentKey
  rw [List.append_assoc]
  rfl

theorem intentKey_injective_pid (podID : Str) (a b : Int)
    (h : intentKey podID a = intentKey podID b) : a = b := by
  rw [intentKey_eq, intentKey_eq] at h
  have h1 := List.append_cancel_left h
  rw [List.cons.injEq] at h1
  exact formatInt_injective a b h1.2

theorem append_sep_cancel (c : Char) : ∀ (a b x y : Str), c ∉ x → c ∉ y →
    a ++ c :: x = b ++ c :: y → a = b ∧ x = y := by
  intro a
  induction a with
  | nil =>
    intro b x y hx hy h
    cases b with
    | nil =>
      simp only [List.nil_append, List.cons.injEq, true_and] at h
      exact ⟨rfl, h⟩
    | cons b0 b1 =>
      simp only [List.nil_append, List.cons_append, List.cons.injEq] at h
      exact absurd (h.2 ▸ (by simp : c ∈ b1 ++ c :: y)) hx
  | cons a0 a1 ih =>
    intro b x y hx hy h
    cases b with
    | nil =>
      simp only [List.nil_append, List.cons_append, List.cons.injEq] at h
      exact absurd (h.2 ▸ (by simp : c ∈ a1 ++ c :: x)) hy
    | cons b0 b1 =>
      simp only [List.cons_append, List.cons.injEq] at h
      obtain ⟨h1, h2⟩ := ih b1 x y hx hy h.2
      exact ⟨by rw [h.1, h1], h2⟩

/-- With non-negative PIDs the key determines both the pod id and the PID. -/
theorem intentKey_injective_of_nonneg (p q : Str) (a b : Int) (ha : 0 ≤ a) (hb : 0 ≤ b)
    (h : intentKey p a = intentKey q b) : p = q ∧ a = b := by
  rw [intentKey_eq, intentKey_eq] at h
  obtain ⟨h1, h2⟩ := append_sep_cancel '-' p q _ _ (hyphen_not_mem_formatInt a ha)
    (hyphen_not_mem_formatInt b hb) h
  exact ⟨h1, formatInt_injective a b h2⟩

/-! ## The pod pattern -/

theorem pod_toList : "pod".toList = ['p', 'o', 'd'] := rfl

theorem hasPrefix_pod_iff (s : Str) :
    HasPrefix s "pod".toList = true ↔ ∃ t, s = 'p' :: 'o' :: 'd' :: t := by
  rw [pod_toList]
  unfold HasPrefix
  rw [List.isPrefixOf_iff_prefix]
  constructor
  · rintro ⟨t, ht⟩
    exact ⟨t, ht.symm⟩
  · rintro ⟨t, ht⟩
    exact ⟨t, ht.symm⟩

theorem podRegexMatchAt_pod (rest : Str) :
    podRegexMatchAt ('p' :: 'o' :: 'd' :: rest) =
      if (rest.takeWhile isPodUIDChar).isEmpty then none
      else some ["pod".toList ++ rest.takeWhile isPodUIDChar ++
        (if HasPrefix (rest.dropWhile isPodUIDChar) ".slice".toList then ".slice".toList else []),
        rest.takeWhile isPodUIDChar] := by
  have h : HasPrefix ('p' :: 'o' :: 'd' :: rest) "pod".toList = true :=
    (hasPrefix_pod_iff _).2 ⟨rest, rfl⟩
  unfold podRegexMatchAt
  rw [if_pos h]
  rfl

theorem podRegexMatchAt_isSome_iff (s : Str) :
    (podRegexMatchAt s).isSome = true ↔
      ∃ c t, s = 'p' :: 'o' :: 'd' :: c :: t ∧ isPodUIDChar c = true := by
  constructor
  · intro h
    by_cases hp : HasPrefix s "pod".toList = true
    · obtain ⟨rest, rfl⟩ := (hasPrefix_pod_iff s).1 hp
      rw [podRegexMatchAt_pod] at h
      cases rest with
      | nil => simp at h
      | cons c t =>
        by_cases hc : isPodUIDChar c = true
        · exact ⟨c, t, rfl, hc⟩
        · simp [List.takeWhile, hc] at h
    · unfold podRegexMatchAt at h
      rw [if_neg hp] at h
      simp at h
  · rintro ⟨c, t, rfl, hc⟩
    rw [podRegexMatchAt_pod]
    simp [List.takeWhile, hc]

theorem podRegexMatchAt_eq_none_iff (s : Str) :
    podRegexMatchAt s = none ↔
      ¬ ∃ c t, s = 'p' :: 'o' :: 'd' :: c :: t ∧ isPodUIDChar c = true := by
  rw [← podRegexMatchAt_isSome_iff]
  cases podRegexMatchAt s <;> simp

theorem podRegexFindStringSubmatch_cons (c : Char) (cs : Str) :
    podRegexFindStringSubmatch (c :: cs) =
      match podRegexMatchAt (c :: cs) with
      | some m => some m
      | none => podRegexFindStringSubmatch cs := rfl

theorem podRegexMatchAt_nil : podRegexMatchAt [] = none := rfl

/-- The pattern matches a string exactly when the string contains `pod` followed by a
character of the class. -/
theorem podRegexMatchString_iff (s : Str) :
    podRegexMatchString s = true ↔ ContainsPodMarker s := by
  unfold podRegexMatchString ContainsPodMarker
  induction s with
  | nil =>
    simp [podRegexFindStringSubmatch, podRegexMatchAt_nil]
  | cons c cs ih =>
    rw [podRegexFindStringSubmatch_cons]
    cases hm : podRegexMatchAt (c :: cs) with
    | some m =>
      have h1 : (podRegexMatchAt (c :: cs)).isSome = true := by rw [hm]; rfl
      obtain ⟨x, t, hs, hx⟩ := (podRegexMatchAt_isSome_iff _).1 h1
      simp only [Option.isSome_some, true_iff]
      exact ⟨[], x, t, hs, hx⟩
    | none =>
      simp only
      rw [ih]
      constructor
      · rintro ⟨a, x, b, hs, hx⟩
        exact ⟨c :: a, x, b, by rw [hs]; rfl, hx⟩
      · rintro ⟨a, x, b, hs, hx⟩
        cases a with
        | nil =>
          exact absurd ⟨x, b, hs, hx⟩ ((podRegexMatchAt_eq_none_iff _).1 hm)
        | cons a0 a1 =>
          simp only [List.cons_append, List.cons.injEq] at hs
          exact ⟨a1, x, b, hs.2, hx⟩

theorem podRegexMatchString_eq_false_iff (s : Str) :
    podRegexMatchString s = false ↔ ¬ ContainsPodMarker s := by
  rw [← podRegexMatchString_iff]
  cases podRegexMatchString s <;> simp

theorem podRegexFindStringSubmatch_eq_none_iff (s : Str) :
    podRegexFindStringSubmatch s = none ↔ podRegexMatchString s = false := by
  unfold podRegexMatchString
  cases podRegexFindStringSubmatch s <;> simp

theorem isPodUIDChar_p : isPodUIDChar 'p' = false := by decide

/-- A string without a match, put in front of a text that starts with `p`, adds no match:
the search returns what it returns on that text. -/
theorem podRegexFindStringSubmatch_append (pre rest : Str)
    (hpre : podRegexMatchString pre = false) :
    podRegexFindStringSubmatch (pre ++ 'p' :: rest) =
      podRegexFindStringSubmatch ('p' :: rest) := by
  induction pre with
  | nil => rfl
  | cons c cs ih =>
    have hfind := (podRegexFindStringSubmatch_eq_none_iff _).2 hpre
    rw [podRegexFindStringSubmatch_cons] at hfind
    cases hm : podRegexMatchAt (c :: cs) with
    | some m => rw [hm] at hfind; simp at hfind
    | none =>
      rw [hm] at hfind
      simp only at hfind
      have hcs : podRegexMatchString cs = false :=
        (podRegexFindStringSubmatch_eq_none_iff _).1 hfind
      have hnone : podRegexMatchAt (c :: cs ++ 'p' :: rest) = none := by
        rw [podRegexMatchAt_eq_none_iff]
        rintro ⟨x, t, hs, hx⟩
        have hno := (podRegexMatchAt_eq_none_iff _).1 hm
        rcases cs with _ | ⟨a, _ | ⟨b, _ | ⟨y, u⟩⟩⟩
        · simp at hs
        · simp at hs
        · simp only [List.cons_append, List.nil_append, List.cons.injEq] at hs
          obtain ⟨-, -, -, h4, -⟩ := hs
          rw [← h4, isPodUIDChar_p] at hx
          exact absurd hx (by simp)
        · simp only [List.cons_append, List.cons.injEq] at hs
          obtain ⟨h1, h2, h3, h4, -⟩ := hs
          exact hno ⟨y, u, by rw [h1, h2, h3], by rw [h4]; exact hx⟩
      rw [List.cons_append, podRegexFindStringSubmatch_cons, ← List.cons_append, hnone]
      exact ih hcs

theorem takeWhile_append_of_all (p : Char → Bool) (g suf : Str) (hg : ∀ c ∈ g, p c = true)
    (hsuf : ∀ c ∈ suf.head?, p c = false) : (g ++ suf).takeWhile p = g := by
  induction g with
  | nil =>
    cases suf with
    | nil => rfl
    | cons x t =>
      have : p x = false := hsuf x (by simp)
      simp [List.takeWhile, this]
  | cons c cs ih =>
    have hc : p c = true := hg c (List.mem_cons_self _ _)
    rw [List.cons_append, List.takeWhile_cons, hc, if_pos rfl]
    rw [ih (fun x hx => hg x (List.mem_cons_of_mem _ hx))]

/-- The group captured on `pre ++ "pod" ++ grp ++ suf`, where `pre` has no match, `grp` is a
non-empty run of class characters and `suf` does not go on with a class character. -/
theorem podRegex_group (pre grp suf : Str) (hpre : podRegexMatchString pre = false)
    (hne : grp ≠ []) (hg : ∀ c ∈ grp, isPodUIDChar c = true)
    (hsuf : ∀ c ∈ suf.head?, isPodUIDChar c = false) :
    podRegexMatchString (pre ++ 'p' :: 'o' :: 'd' :: (grp ++ suf)) = true ∧
    ((podRegexFindStringSubmatch (pre ++ 'p' :: 'o' :: 'd' :: (grp ++ suf))).getD []).getD 1 []
      = grp := by
  have htw := takeWhile_append_of_all isPodUIDChar grp suf hg hsuf
  have hemp : (grp.isEmpty) = false := by
    cases grp with
    | nil => exact absurd rfl hne
    | cons _ _ => rfl
  have hfind : podRegexFindStringSubmatch (pre ++ 'p' :: 'o' :: 'd' :: (grp ++ suf)) =
      some ["pod".toList ++ grp ++
        (if HasPrefix ((grp ++ suf).dropWhile isPodUIDChar) ".slice".toList
          then ".slice".toList else []), grp] := by
    rw [podRegexFindStringSubmatch_append pre _ hpre, podRegexFindStringSubmatch_cons,
      podRegexMatchAt_pod, htw, hemp]
    rfl
  constructor
  · unfold podRegexMatchString
    rw [hfind]; rfl
  · rw [hfind]; rfl

/-! ## The loop of `getPodInfoFromCgroup` -/

theorem step_fst (acc : Str × Str) (part : Str) :
    (getPodInfoFromCgroup.step acc part).1 =
      if podRegexMatchString part then
        ReplaceAll (((podRegexFindStringSubmatch part).getD []).getD 1 []) '_' '-'
      else acc.1 := rfl

theorem step_snd (acc : Str × Str) (part : Str) :
    (getPodInfoFromCgroup.step acc part).2 =
      if isContainerSegment part then
        TrimSuffix (TrimPrefix part "cri-containerd-".toList) ".scope".toList
      else acc.2 := rfl

theorem foldl_step_fst_of_no_match (B : List Str) :
    ∀ acc : Str × Str, (∀ b ∈ B, podRegexMatchString b = false) →
      (B.foldl getPodInfoFromCgroup.step acc).1 = acc.1 := by
  induction B with
  | nil => intro acc _; rfl
  | cons b bs ih =>
    intro acc h
    rw [List.foldl_cons, ih _ (fun x hx => h x (List.mem_cons_of_mem _ hx)), step_fst,
      h b (List.mem_cons_self _ _)]
    rfl

theorem foldl_step_snd (parts : List Str) (acc : Str × Str) :
    (parts.foldl getPodInfoFromCgroup.step acc).2 =
      match (parts.filter isContainerSegment).getLast? with
      | none => acc.2
      | some seg => TrimSuffix (TrimPrefix seg "cri-containerd-".toList) ".scope".toList := by
  induction parts using List.reverseRecOn with
  | nil => rfl
  | append_singleton l x ih =>
    rw [List.foldl_append, List.foldl_cons, List.foldl_nil, step_snd, List.filter_append]
    by_cases hx : isContainerSegment x = true
    · rw [if_pos hx]
      have : List.filter isContainerSegment [x] = [x] := by
        simp only [List.filter, hx]
      rw [this, List.getLast?_append, List.getLast?_singleton]
      rfl
    · rw [if_neg hx, ih]
      have : List.filter isContainerSegment [x] = [] := by
        simp only [List.filter, Bool.not_eq_true] at hx ⊢
        rw [hx]
      rw [this, List.append_nil]

theorem getPodInfoFromCgroup_ok (path uid cid : Str)
    (h : getPodInfoFromCgroup path = .ok (uid, cid)) :
    uid = ((Split path '/').foldl getPodInfoFromCgroup.step ([], [])).1 ∧
    cid = ((Split path '/').foldl getPodInfoFromCgroup.step ([], [])).2 ∧ uid ≠ [] := by
  unfold getPodInfoFromCgroup at h
  simp only at h
  by_cases he : ((Split path '/').foldl getPodInfoFromCgroup.step ([], [])).1 = []
  · rw [if_pos he] at h
    exact absurd h (by simp)
  · rw [if_neg he] at h
    simp only [Except.ok.injEq, Prod.mk.injEq] at h
    exact ⟨h.1.symm, h.2.symm, h.1 ▸ he⟩

theorem getPodInfoFromCgroup_error_iff (path : Str) :
    (∃ err, getPodInfoFromCgroup path = .error err) ↔
      ((Split path '/').foldl getPodInfoFromCgroup.step ([], [])).1 = [] := by
  unfold getPodInfoFromCgroup
  simp only
  by_cases he : ((Split path '/').foldl getPodInfoFromCgroup.step ([], [])).1 = []
  · rw [if_pos he]
    exact ⟨fun _ => he, fun _ => ⟨_, rfl⟩⟩
  · rw [if_neg he]
    constructor
    · rintro ⟨err, h⟩
      exact absurd h (by simp)
    · intro h
      exact absurd h he

/-! ## Container segments -/

theorem hasSuffix_iff (s suf : Str) : HasSuffix s suf = true ↔ suf <:+ s := by
  unfold HasSuffix
  exact List.isSuffixOf_iff_suffix

theorem hasPrefix_iff (s pre : Str) : HasPrefix s pre = true ↔ pre <+: s := by
  unfold HasPrefix
  exact List.isPrefixOf_iff_prefix

theorem containerd_toList : "cri-containerd-".toList =
    ['c', 'r', 'i', '-', 'c', 'o', 'n', 't', 'a', 'i', 'n', 'e', 'r', 'd', '-'] := rfl

theorem scope_toList : ".scope".toList = ['.', 's', 'c', 'o', 'p', 'e'] := rfl

/-- On a segment with prefix `cri-containerd-` and suffix `.scope` the two do not overlap, and
the container ID is what lies between them. -/
theorem containerSegment_trim (seg : Str) (h : isContainerSegment seg = true) :
    seg = "cri-containerd-".toList ++
      TrimSuffix (TrimPrefix seg "cri-containerd-".toList) ".scope".toList ++ ".scope".toList := by
  unfold isContainerSegment at h
  rw [Bool.and_eq_true] at h
  obtain ⟨hp, hs⟩ := h
  obtain ⟨r, hr⟩ := (hasPrefix_iff _ _).1 hp
  have hsuf : ".scope".toList <:+ seg := (hasSuffix_iff _ _).1 hs
  have hrsuf : r <:+ seg := ⟨_, hr⟩
  have htp : TrimPrefix seg "cri-containerd-".toList = r := by
    unfold TrimPrefix
    rw [if_pos hp, ← hr, List.drop_left]
  rw [htp]
  by_cases hlen : 6 ≤ r.length
  · have hsr : ".scope".toList <:+ r :=
      List.suffix_of_suffix_length_le hsuf hrsuf (by rw [scope_toList]; exact hlen)
    have hts : TrimSuffix r ".scope".toList ++ ".scope".toList = r := by
      unfold TrimSuffix
      rw [if_pos ((hasSuffix_iff _ _).2 hsr)]
      obtain ⟨t, ht⟩ := hsr
      rw [← ht, List.length_append, Nat.add_sub_cancel, List.take_left]
    rw [List.append_assoc, hts, hr]
  · exfalso
    rw [← hr, containerd_toList, scope_toList] at hsuf
    rcases r with _ | ⟨a, _ | ⟨b, _ | ⟨c, _ | ⟨d, _ | ⟨e, _ | ⟨f, t⟩⟩⟩⟩⟩⟩
    · revert hsuf; decide
    · have := List.IsSuffix.reverse hsuf
      simp [List.prefix_cons_inj] at this
    · have := List.IsSuffix.reverse hsuf
      simp [List.prefix_cons_inj] at this
    · have := List.IsSuffix.reverse hsuf
      simp [List.prefix_cons_inj] at this
    · have := List.IsSuffix.reverse hsuf
      simp [List.prefix_cons_inj] at this
    · have := List.IsSuffix.reverse hsuf
      simp [List.prefix_cons_inj] at this
    · simp at hlen

theorem containerSegment_trim_length (seg : Str) (h : isContainerSegment seg = true) :
    (TrimSuffix (TrimPrefix seg "cri-containerd-".toList) ".scope".toList).length + 21 =
      seg.length := by
  have := congrArg List.length (containerSegment_trim seg h)
  rw [List.length_append, List.length_append] at this
  have h1 : "cri-containerd-".toList.length = 15 := rfl
  have h2 : ".scope".toList.length = 6 := rfl
  omega

/-! ## C1: the pod UID of a path with a pod segment -/

theorem isHexString_spec (h : Str) (hh : isHexString h = true) :
    h ≠ [] ∧ (∀ c ∈ h, isPodUIDChar c = true) ∧ ReplaceAll h '_' '-' = h := by
  unfold isHexString at hh
  rw [Bool.and_eq_true, List.all_eq_true] at hh
  obtain ⟨hne, hall⟩ := hh
  refine ⟨?_, ?_, ?_⟩
  · rintro rfl
    simp at hne
  · intro c hc
    have := hall c hc
    unfold isHexDigit at this
    unfold isPodUIDChar
    simp only [Bool.or_eq_true] at this ⊢
    exact Or.inl this
  · unfold ReplaceAll
    have hid : ∀ c ∈ h, (fun c => if c = '_' then '-' else c) c = id c := by
      intro c hc
      have hcd : c ≠ '_' := by
        rintro rfl
        exact absurd (hall _ hc) (by decide)
      simp only [if_neg hcd, id]
    rw [List.map_congr_left hid, List.map_id]

theorem replaceAll_append (a b : Str) (x y : Char) :
    ReplaceAll (a ++ b) x y = ReplaceAll a x y ++ ReplaceAll b x y := by
  unfold ReplaceAll
  rw [List.map_append]

theorem replaceAll_cons_underscore (b : Str) :
    ReplaceAll ('_' :: b) '_' '-' = '-' :: ReplaceAll b '_' '-' := rfl

theorem joinUnderscore_spec (h1 h2 h3 h4 h5 : Str) (hh1 : isHexString h1 = true)
    (hh2 : isHexString h2 = true) (hh3 : isHexString h3 = true) (hh4 : isHexString h4 = true)
    (hh5 : isHexString h5 = true) :
    joinUnderscore h1 h2 h3 h4 h5 ≠ [] ∧
    (∀ c ∈ joinUnderscore h1 h2 h3 h4 h5, isPodUIDChar c = true) ∧
    ReplaceAll (joinUnderscore h1 h2 h3 h4 h5) '_' '-' = joinHyphen h1 h2 h3 h4 h5 := by
  obtain ⟨n1, c1, r1⟩ := isHexString_spec h1 hh1
  obtain ⟨-, c2, r2⟩ := isHexString_spec h2 hh2
  obtain ⟨-, c3, r3⟩ := isHexString_spec h3 hh3
  obtain ⟨-, c4, r4⟩ := isHexString_spec h4 hh4
  obtain ⟨-, c5, r5⟩ := isHexString_spec h5 hh5
  have hu : isPodUIDChar '_' = true := by decide
  refine ⟨?_, ?_, ?_⟩
  · unfold joinUnderscore
    intro h
    exact n1 (List.append_eq_nil.1 h).1
  · intro c hc
    unfold joinUnderscore at hc
    simp only [List.mem_append, List.mem_cons] at hc
    rcases hc with h | h | h | h | h | h | h | h | h
    · exact c1 c h
    · rw [h]; exact hu
    · exact c2 c h
    · rw [h]; exact hu
    · exact c3 c h
    · rw [h]; exact hu
    · exact c4 c h
    · rw [h]; exact hu
    · exact c5 c h
  · unfold joinUnderscore joinHyphen
    rw [replaceAll_append, replaceAll_cons_underscore, replaceAll_append,
      replaceAll_cons_underscore, replaceAll_append, replaceAll_cons_underscore,
      replaceAll_append, replaceAll_cons_underscore, r1, r2, r3, r4, r5]

/-- C1, as stated, fails. In `/kubepods-pod1_2_3_4_5.slice/podab` the segment
`kubepods-pod1_2_3_4_5.slice` has the required form, yet the pod UID returned is `ab`, taken
from the later segment `podab`. In `/podded-pod1_2_3_4_5.slice` the segment has the required
form with the prefix `podded-`, yet the pod UID returned is `ded`, taken from the prefix. -/
theorem getPodInfoFromCgroup_pod_segment_counterexample :
    ("kubepods-".toList ++ "pod".toList ++
        joinUnderscore "1".toList "2".toList "3".toList "4".toList "5".toList ++ ".slice".toList)
      ∈ Split pathWithLaterPodSegment '/' ∧
    getPodInfoFromCgroup pathWithLaterPodSegment = .ok ("ab".toList, []) ∧
    ("podded-".toList ++ "pod".toList ++
        joinUnderscore "1".toList "2".toList "3".toList "4".toList "5".toList ++ ".slice".toList)
      ∈ Split pathWithPodInPrefix '/' ∧
    getPodInfoFromCgroup pathWithPodInPrefix = .ok ("ded".toList, []) ∧
    "ab".toList ≠ joinHyphen "1".toList "2".toList "3".toList "4".toList "5".toList ∧
    "ded".toList ≠ joinHyphen "1".toList "2".toList "3".toList "4".toList "5".toList := by
  refine ⟨by decide, by rfl, by decide, by rfl, by decide, by decide⟩

/-- C1, amended. Let the hierarchy path, split on `/`, be `A ++ seg :: B`, where `seg` is
`pre ++ "pod" ++ h1_h2_h3_h4_h5 ++ suf`, every `h_i` a non-empty string of hex digits and
`suf` empty or `.slice`. If the prefix `pre` does not contain `pod` followed by a hex digit
or underscore, and no segment after `seg` does, then `getPodInfoFromCgroup` succeeds and
returns the pod UID `h1-h2-h3-h4-h5`, whatever the segments before `seg` are. -/
theorem getPodInfoFromCgroup_pod_segment (path pre h1 h2 h3 h4 h5 suf : Str)
    (A B : List Str)
    (hh1 : isHexString h1 = true) (hh2 : isHexString h2 = true) (hh3 : isHexString h3 = true)
    (hh4 : isHexString h4 = true) (hh5 : isHexString h5 = true)
    (hsuf : suf = [] ∨ suf = ".slice".toList)
    (hsplit : Split path '/' =
      A ++ (pre ++ "pod".toList ++ joinUnderscore h1 h2 h3 h4 h5 ++ suf) :: B)
    (hpre : ¬ ContainsPodMarker pre)
    (hB : ∀ b ∈ B, ¬ ContainsPodMarker b) :
    ∃ containerID,
      getPodInfoFromCgroup path = .ok (joinHyphen h1 h2 h3 h4 h5, containerID) := by
  obtain ⟨jne, jall, jrep⟩ := joinUnderscore_spec h1 h2 h3 h4 h5 hh1 hh2 hh3 hh4 hh5
  have hsufc : ∀ c ∈ suf.head?, isPodUIDChar c = false := by
    rcases hsuf with h | h
    · rw [h]; intro c hc; simp at hc
    · rw [h]; intro c hc
      have : c = '.' := by
        simpa [eq_comm] using hc
      rw [this]; decide
  have hseg : pre ++ "pod".toList ++ joinUnderscore h1 h2 h3 h4 h5 ++ suf =
      pre ++ 'p' :: 'o' :: 'd' :: (joinUnderscore h1 h2 h3 h4 h5 ++ suf) := by
    rw [pod_toList]
    simp only [List.append_assoc, List.cons_append, List.nil_append]
  obtain ⟨hmatch, hgrp⟩ := podRegex_group pre (joinUnderscore h1 h2 h3 h4 h5) suf
    ((podRegexMatchString_eq_false_iff _).2 hpre) jne jall hsufc
  have hfst : ((Split path '/').foldl getPodInfoFromCgroup.step ([], [])).1 =
      joinHyphen h1 h2 h3 h4 h5 := by
    rw [hsplit, List.foldl_append, List.foldl_cons,
      foldl_step_fst_of_no_match B _
        (fun b hb => (podRegexMatchString_eq_false_iff _).2 (hB b hb)),
      step_fst, hseg, hmatch, if_pos rfl, hgrp, jrep]
  have hne : joinHyphen h1 h2 h3 h4 h5 ≠ [] := by
    unfold joinHyphen
    intro h
    exact (isHexString_spec h1 hh1).1 (List.append_eq_nil.1 h).1
  refine ⟨((Split path '/').foldl getPodInfoFromCgroup.step ([], [])).2, ?_⟩
  unfold getPodInfoFromCgroup
  simp only
  rw [hfst, if_neg hne]

/-- The amended C1 at the hierarchy path of the worked example. -/
theorem getPodInfoFromCgroup_pod_segment_witness :
    ∃ containerID, getPodInfoFromCgroup examplePath =
      .ok (joinHyphen "20da609e".toList "6973".toList "4463".toList "a1f9".toList
        "2db9bcc5becc".toList, containerID) :=
  getPodInfoFromCgroup_pod_segment examplePath "kubelet-kubepods-".toList
    "20da609e".toList "6973".toList "4463".toList "a1f9".toList "2db9bcc5becc".toList
    ".slice".toList
    ["".toList, "kubelet.slice".toList, "kubelet-kubepods.slice".toList]
    [("cri-containerd-10ec3c89629f71226b227e6510b2d465168b24005bbdcc5d7940517080830635" ++
      ".scope").toList]
    (by decide) (by decide) (by decide) (by decide) (by decide) (Or.inr rfl) (by decide)
    ((podRegexMatchString_eq_false_iff _).1 (by decide))
    (fun b hb => by
      rw [List.mem_singleton] at hb
      rw [hb]
      exact (podRegexMatchString_eq_false_iff _).1 (by decide))

/-! ## C2: the container ID -/

/-- C2, as stated, fails. On `/pod1/cri-containerd-.scope` the call succeeds, the segment
`cri-containerd-.scope` has the prefix and the suffix, and the container ID returned is
empty. -/
theorem getPodInfoFromCgroup_containerID_counterexample :
    getPodInfoFromCgroup pathWithEmptyContainerID = .ok ("1".toList, []) ∧
    "cri-containerd-.scope".toList ∈ Split pathWithEmptyContainerID '/' ∧
    HasPrefix "cri-containerd-.scope".toList "cri-containerd-".toList = true ∧
    HasSuffix "cri-containerd-.scope".toList ".scope".toList = true := by
  refine ⟨by rfl, by decide, by decide, by decide⟩

/-- C2, amended. When `getPodInfoFromCgroup` succeeds, the container ID is what the last
segment with prefix `cri-containerd-` and suffix `.scope` holds between the two, and it is
empty when there is no such segment. So it is non-empty if and only if such a segment exists
and the last one is longer than the 21 characters of prefix and suffix; a non-empty container
ID implies that such a segment exists. -/
theorem getPodInfoFromCgroup_containerID (path podUID containerID : Str)
    (h : getPodInfoFromCgroup path = .ok (podUID, containerID)) :
    (containerID =
      match ((Split path '/').filter isContainerSegment).getLast? with
      | none => []
      | some seg => TrimSuffix (TrimPrefix seg "cri-containerd-".toList) ".scope".toList) ∧
    (containerID ≠ [] ↔
      ∃ seg, ((Split path '/').filter isContainerSegment).getLast? = some seg ∧
        21 < seg.length) ∧
    (containerID ≠ [] →
      ∃ seg ∈ Split path '/', HasPrefix seg "cri-containerd-".toList = true ∧
        HasSuffix seg ".scope".toList = true) ∧
    ((∀ seg ∈ Split path '/', ¬ (HasPrefix seg "cri-containerd-".toList = true ∧
        HasSuffix seg ".scope".toList = true)) → containerID = []) := by
  obtain ⟨-, hcid, -⟩ := getPodInfoFromCgroup_ok path podUID containerID h
  rw [foldl_step_snd] at hcid
  have hmem : ∀ seg, ((Split path '/').filter isContainerSegment).getLast? = some seg →
      seg ∈ Split path '/' ∧ isContainerSegment seg = true := by
    intro seg hseg
    have := List.mem_of_getLast?_eq_some hseg
    rw [List.mem_filter] at this
    exact this
  have hiff : containerID ≠ [] ↔
      ∃ seg, ((Split path '/').filter isContainerSegment).getLast? = some seg ∧
        21 < seg.length := by
    cases hl : ((Split path '/').filter isContainerSegment).getLast? with
    | none =>
      rw [hl] at hcid
      simp only at hcid
      rw [hcid]
      simp
    | some seg =>
      rw [hl] at hcid
      simp only at hcid
      have hlen := containerSegment_trim_length seg (hmem seg hl).2
      rw [← hcid] at hlen
      constructor
      · intro hne
        refine ⟨seg, rfl, ?_⟩
        have : 0 < containerID.length := List.length_pos.2 hne
        omega
      · rintro ⟨seg1, hseg1, hlt⟩
        rw [Option.some.injEq] at hseg1
        rw [← hseg1] at hlt
        intro hnil
        rw [hnil] at hlen
        simp only [List.length_nil] at hlen
        omega
  refine ⟨hcid, hiff, ?_, ?_⟩
  · intro hne
    obtain ⟨seg, hseg, -⟩ := hiff.1 hne
    obtain ⟨h1, h2⟩ := hmem seg hseg
    unfold isContainerSegment at h2
    rw [Bool.and_eq_true] at h2
    exact ⟨seg, h1, h2⟩
  · intro hall
    by_contra hne
    obtain ⟨seg, hseg, -⟩ := hiff.1 hne
    obtain ⟨h1, h2⟩ := hmem seg hseg
    unfold isContainerSegment at h2
    rw [Bool.and_eq_true] at h2
    exact hall seg h1 h2

/-- The amended C2 at the hierarchy path of the worked example. -/
theorem getPodInfoFromCgroup_containerID_witness :
    (exampleContainerID =
      match ((Split examplePath '/').filter isContainerSegment).getLast? with
      | none => []
      | some seg => TrimSuffix (TrimPrefix seg "cri-containerd-".toList) ".scope".toList) ∧
    (exampleContainerID ≠ [] ↔
      ∃ seg, ((Split examplePath '/').filter isContainerSegment).getLast? = some seg ∧
        21 < seg.length) ∧
    (exampleContainerID ≠ [] →
      ∃ seg ∈ Split examplePath '/', HasPrefix seg "cri-containerd-".toList = true ∧
        HasSuffix seg ".scope".toList = true) ∧
    ((∀ seg ∈ Split examplePath '/', ¬ (HasPrefix seg "cri-containerd-".toList = true ∧
        HasSuffix seg ".scope".toList = true)) → exampleContainerID = []) :=
  getPodInfoFromCgroup_containerID examplePath exampleUID exampleContainerID (by rfl)

/-! ## C3 and C4: parsing one control-group line -/

theorem getProcessInfo_ok (fs : FileSystem) (rootDir : Str) (pid : Int) :
    ∃ process, getProcessInfo fs rootDir pid = .ok process ∧ process.PID = pid := by
  unfold getProcessInfo
  refine ⟨_, rfl, ?_⟩
  cases fs.ReadFile ("/".toList ++ rootDir ++ "/".toList ++ formatInt pid ++ "/comm".toList) <;>
  cases hs : fs.ReadFile
    ("/".toList ++ rootDir ++ "/".toList ++ formatInt pid ++ "/stat".toList) with
  | none => rfl
  | some data =>
    simp only
    split
    · split <;> rfl
    · rfl

theorem parseCgroupToPodInfo_of_error (fs : FileSystem) (rootDir line : Str) (pid : Int)
    (podInfoMap : GoMap PodInfo) (err : String) (hfields : 3 ≤ (Split line ':').length)
    (herr : getPodInfoFromCgroup ((Split line ':').getD 2 []) = .error err) :
    parseCgroupToPodInfo fs rootDir line pid podInfoMap = (.error err, podInfoMap) := by
  unfold parseCgroupToPodInfo
  simp only [ge_iff_le, hfields, if_true, herr]

theorem parseCgroupToPodInfo_of_ok (fs : FileSystem) (rootDir line : Str) (pid : Int)
    (podInfoMap : GoMap PodInfo) (podUID containerID : Str)
    (hfields : 3 ≤ (Split line ':').length)
    (hok : getPodInfoFromCgroup ((Split line ':').getD 2 []) = .ok (podUID, containerID)) :
    ∃ process, getProcessInfo fs rootDir pid = .ok process ∧ process.PID = pid ∧
      parseCgroupToPodInfo fs rootDir line pid podInfoMap =
        (.ok (), mapSet podInfoMap podUID
          (match mapGet podInfoMap podUID with
           | some podInfo =>
             { podInfo with Processes :=
                 podInfo.Processes ++ [{ process with ContainerID := containerID }] }
           | none =>
             { PodUID := podUID,
               Processes := [{ process with ContainerID := containerID }] })) := by
  obtain ⟨process, hp, hpid⟩ := getProcessInfo_ok fs rootDir pid
  refine ⟨process, hp, hpid, ?_⟩
  unfold parseCgroupToPodInfo
  simp only [ge_iff_le, hfields, if_true, hok, hp]
  cases mapGet podInfoMap podUID <;> rfl

theorem parseCgroupToPodInfo_of_short (fs : FileSystem) (rootDir line : Str) (pid : Int)
    (podInfoMap : GoMap PodInfo) (hfields : (Split line ':').length < 3) :
    parseCgroupToPodInfo fs rootDir line pid podInfoMap = (.ok (), podInfoMap) := by
  unfold parseCgroupToPodInfo
  have : ¬ (Split line ':').length ≥ 3 := by omega
  simp only [this, if_false]

set_option maxRecDepth 100000 in
theorem exampleLine_fields : 3 ≤ (Split exampleLine ':').length := by decide

set_option maxRecDepth 100000 in
theorem exampleLine_hierarchy :
    getPodInfoFromCgroup ((Split exampleLine ':').getD 2 []) =
      .ok (exampleUID, exampleContainerID) := by rfl

/-- C3. Parsing the line of the worked example into an empty pod map returns no error and
leaves the map with exactly one key, the pod UID `20da609e-6973-4463-a1f9-2db9bcc5becc`; the
`PodInfo` under it has that `PodUID` and exactly one process, whose `ContainerID` is
`10ec3c89...0635` and whose `PID` is the PID passed in. -/
theorem parseCgroupToPodInfo_worked_example (fs : FileSystem) (rootDir : Str) (pid : Int) :
    ∃ process : PodProcess,
      parseCgroupToPodInfo fs rootDir exampleLine pid [] =
        (.ok (), [(exampleUID, { PodUID := exampleUID, Processes := [process] })]) ∧
      process.ContainerID = exampleContainerID ∧ process.PID = pid := by
  obtain ⟨process, -, hpid, hparse⟩ :=
    parseCgroupToPodInfo_of_ok fs rootDir exampleLine pid [] exampleUID exampleContainerID
      exampleLine_fields exampleLine_hierarchy
  exact ⟨{ process with ContainerID := exampleContainerID }, hparse, rfl, hpid⟩

/-- C4, as stated, fails. The line `kubepods` has a single colon-delimited field, so no
hierarchy path, and nowhere `pod` followed by a hex digit or underscore; on it
`parseCgroupToPodInfo` returns no error. -/
theorem parseCgroupToPodInfo_no_pod_segment_counterexample :
    (Split "kubepods".toList ':').length = 1 ∧
    podRegexMatchString "kubepods".toList = false ∧
    Contains "kubepods".toList "kubepods".toList = true ∧
    parseCgroupToPodInfo emptyFS procDir "kubepods".toList 1 [] = (.ok (), []) := by
  refine ⟨by decide, by decide, by decide, by rfl⟩

/-- C4, amended. For every cgroup line with at least three colon-delimited fields in which
no `/`-separated segment of the hierarchy path (the third field) contains `pod` followed by a
hex digit or underscore, `parseCgroupToPodInfo` returns an error and leaves the pod map
exactly as it was. A line with fewer than three fields is ignored: no error, and the map is
again left as it was. -/
theorem parseCgroupToPodInfo_no_pod_segment (fs : FileSystem) (rootDir line : Str)
    (pid : Int) (podInfoMap : GoMap PodInfo)
    (hno : ∀ seg ∈ Split ((Split line ':').getD 2 []) '/', ¬ ContainsPodMarker seg) :
    (3 ≤ (Split line ':').length →
      ∃ err, parseCgroupToPodInfo fs rootDir line pid podInfoMap = (.error err, podInfoMap)) ∧
    ((Split line ':').length < 3 →
      parseCgroupToPodInfo fs rootDir line pid podInfoMap = (.ok (), podInfoMap)) := by
  constructor
  · intro hfields
    have hfst := foldl_step_fst_of_no_match (Split ((Split line ':').getD 2 []) '/') ([], [])
      (fun b hb => (podRegexMatchString_eq_false_iff _).2 (hno b hb))
    obtain ⟨err, herr⟩ := (getPodInfoFromCgroup_error_iff _).2 hfst
    exact ⟨err, parseCgroupToPodInfo_of_error fs rootDir line pid podInfoMap err hfields herr⟩
  · exact parseCgroupToPodInfo_of_short fs rootDir line pid podInfoMap

/-- The amended C4 at the line `0::/kubelet.slice/kubelet-kubepods.slice`. -/
theorem parseCgroupToPodInfo_no_pod_segment_witness :
    (3 ≤ (Split "0::/kubelet.slice/kubelet-kubepods.slice".toList ':').length →
      ∃ err, parseCgroupToPodInfo emptyFS procDir
        "0::/kubelet.slice/kubelet-kubepods.slice".toList 7 [] = (.error err, [])) ∧
    ((Split "0::/kubelet.slice/kubelet-kubepods.slice".toList ':').length < 3 →
      parseCgroupToPodInfo emptyFS procDir
        "0::/kubelet.slice/kubelet-kubepods.slice".toList 7 [] = (.ok (), [])) :=
  parseCgroupToPodInfo_no_pod_segment emptyFS procDir
    "0::/kubelet.slice/kubelet-kubepods.slice".toList 7 []
    (by
      intro seg hseg
      have hall : (Split ((Split "0::/kubelet.slice/kubelet-kubepods.slice".toList ':').getD
          2 []) '/').all (fun s => !podRegexMatchString s) = true := by decide
      have hseg1 := List.all_eq_true.1 hall seg hseg
      exact (podRegexMatchString_eq_false_iff seg).1 (by simpa using hseg1))

/-! ## What `Atoi` accepts, and what `expectedRead` says -/

theorem atoi_digits_ok (neg : Bool) (ds : Str) (v : Int)
    (h : (if ds.isEmpty then (Except.error "invalid syntax" : Except String Int)
      else if ds.all isDigit then
        if minInt ≤ (if neg then -(digitsValue ds : Int) else (digitsValue ds : Int)) ∧
            (if neg then -(digitsValue ds : Int) else (digitsValue ds : Int)) ≤ maxInt then
          .ok (if neg then -(digitsValue ds : Int) else (digitsValue ds : Int))
        else .error "value out of range"
      else .error "invalid syntax") = .ok v) :
    ds ≠ [] ∧ (∀ c ∈ ds, isDigit c = true) ∧ minInt ≤ v ∧ v ≤ maxInt := by
  by_cases he : ds.isEmpty = true
  · rw [if_pos he] at h
    exact absurd h (by simp)
  · rw [if_neg he] at h
    by_cases hall : ds.all isDigit = true
    · rw [if_pos hall] at h
      by_cases hr : minInt ≤ (if neg then -(digitsValue ds : Int) else (digitsValue ds : Int)) ∧
          (if neg then -(digitsValue ds : Int) else (digitsValue ds : Int)) ≤ maxInt
      · rw [if_pos hr, Except.ok.injEq] at h
        refine ⟨?_, List.all_eq_true.1 hall, h ▸ hr.1, h ▸ hr.2⟩
        intro hnil
        rw [hnil] at he
        exact he rfl
      · rw [if_neg hr] at h
        exact absurd h (by simp)
    · rw [if_neg hall] at h
      exact absurd h (by simp)

/-- A name accepted by `Atoi` is an optional sign followed by one or more decimal digits, and
the value is within the range of `int`. -/
theorem Atoi_ok_shape (s : Str) (v : Int) (h : Atoi s = .ok v) :
    ∃ ds : Str, ds ≠ [] ∧ (∀ c ∈ ds, isDigit c = true) ∧
      (s = ds ∨ s = '+' :: ds ∨ s = '-' :: ds) ∧ minInt ≤ v ∧ v ≤ maxInt := by
  unfold Atoi at h
  simp only at h
  by_cases hc : s.head? = some '-' ∨ s.head? = some '+'
  · rw [if_pos hc] at h
    obtain ⟨h1, h2, h3, h4⟩ := atoi_digits_ok _ _ v h
    refine ⟨s.drop 1, h1, h2, ?_, h3, h4⟩
    cases s with
    | nil => exact absurd hc (by simp)
    | cons c cs =>
      simp only [List.head?_cons, Option.some.injEq] at hc
      rcases hc with hc | hc
      · exact Or.inr (Or.inr (by rw [hc]; rfl))
      · exact Or.inr (Or.inl (by rw [hc]; rfl))
  · rw [if_neg hc] at h
    obtain ⟨h1, h2, h3, h4⟩ := atoi_digits_ok _ _ v h
    exact ⟨s, h1, h2, Or.inl rfl, h3, h4⟩

theorem expectedRead_no_update (gets : List MetricCall)
    (h : ∀ c ∈ gets, c = MetricCall.get) : expectedRead gets = none := by
  unfold expectedRead
  have : gets.filterMap MetricCall.updateArg = [] := by
    rw [List.filterMap_eq_nil_iff]
    intro c hc
    rw [h c hc]
    rfl
  rw [this]
  rfl

theorem expectedRead_after_update (pre : List MetricCall) (m : Option MetricSet)
    (gets : List MetricCall) (h : ∀ c ∈ gets, c = MetricCall.get) :
    expectedRead (pre ++ MetricCall.update m :: gets) = m := by
  unfold expectedRead
  have hg : gets.filterMap MetricCall.updateArg = [] := by
    rw [List.filterMap_eq_nil_iff]
    intro c hc
    rw [h c hc]
    rfl
  have : (pre ++ MetricCall.update m :: gets).filterMap MetricCall.updateArg =
      pre.filterMap MetricCall.updateArg ++ [m] := by
    rw [List.filterMap_append, List.filterMap_cons, hg]
    rfl
  rw [this, List.getLast?_append, List.getLast?_singleton]
  rfl

/-! ## C10: the metric snapshot -/

theorem countGets_cons_update (m : Option MetricSet) (calls : List MetricCall) :
    countGets (MetricCall.update m :: calls) = countGets calls := by
  unfold countGets
  rw [List.filter_cons_of_neg (by simp)]

theorem countGets_cons_get (calls : List MetricCall) :
    countGets (MetricCall.get :: calls) = countGets calls + 1 := by
  unfold countGets
  rw [List.filter_cons_of_pos (by simp), List.length_cons]

theorem runMetricCalls_update (collector : MetricCollector) (m : Option MetricSet)
    (rest : List MetricCall) :
    runMetricCalls collector (MetricCall.update m :: rest) =
      runMetricCalls (collector.UpdateMetrics m) rest := rfl

theorem runMetricCalls_get (collector : MetricCollector) (rest : List MetricCall) :
    runMetricCalls collector (MetricCall.get :: rest) =
      ((runMetricCalls collector rest).1,
        collector.GetMetrics :: (runMetricCalls collector rest).2) := rfl

theorem runMetricCalls_read (pre post : List MetricCall) :
    ∀ collector : MetricCollector,
      (runMetricCalls collector (pre ++ MetricCall.get :: post)).2.get? (countGets pre) =
        some (match (pre.filterMap MetricCall.updateArg).getLast? with
              | none => collector.metricSet
              | some m => m) := by
  induction pre with
  | nil =>
    intro collector
    rfl
  | cons c cs ih =>
    intro collector
    cases c with
    | update m =>
      rw [List.cons_append, runMetricCalls_update, countGets_cons_update, ih]
      have hf : List.filterMap MetricCall.updateArg (MetricCall.update m :: cs) =
          m :: List.filterMap MetricCall.updateArg cs := rfl
      rw [hf]
      cases hl : List.filterMap MetricCall.updateArg cs with
      | nil => rfl
      | cons x xs =>
        rw [List.getLast?_cons_cons]
        cases hg : (x :: xs).getLast? with
        | none => exact absurd (List.getLast?_eq_none_iff.1 hg) (by simp)
        | some y => rfl
    | get =>
      rw [List.cons_append, runMetricCalls_get, countGets_cons_get]
      simp only [List.get?_cons_succ]
      rw [ih]
      rfl

/-- C10. In every finite sequence of `UpdateMetrics` and `GetMetrics` calls on a freshly
constructed `MetricCollector`, each `GetMetrics` returns nil when no `UpdateMetrics` precedes
it, and otherwise the `MetricSet` passed to the most recent preceding `UpdateMetrics`. The
sequence is `pre ++ get :: post`; the read looked at is the one after `pre`. -/
theorem MetricCollector_read_latest (machineID : Str) (pre post : List MetricCall) :
    (runMetricCalls (NewMetricCollector machineID) (pre ++ MetricCall.get :: post)).2.get?
      (countGets pre) = some (expectedRead pre) :=
  runMetricCalls_read pre post (NewMetricCollector machineID)

/-! ## The loops of `ProcessIntents` -/

theorem foldl_append_singleton {α β : Type} (f : α → β) (l : List α) :
    ∀ init : List β, l.foldl (fun acc x => acc ++ [f x]) init = init ++ l.map f := by
  induction l with
  | nil => intro init; simp only [List.foldl_nil, List.map_nil, List.append_nil]
  | cons x xs ih =>
    intro init
    rw [List.foldl_cons, ih, List.map_cons, List.append_assoc]
    rfl

theorem intentLabels_eq_map (intent : Intent) :
    intentLabels intent =
      intent.PodLabels.map (fun kv => ({ Key := kv.1, Value := kv.2 } : LabelSelector)) := by
  unfold intentLabels
  rw [foldl_append_singleton (fun kv : Str × Str => ({ Key := kv.1, Value := kv.2 } :
    LabelSelector))]
  rfl

theorem processStep_pause (intent : Intent) (labels : List LabelSelector) (store : GenericMap)
    (p : PodProcess) (hp : p.Command = pauseCommand) :
    processStep intent labels store p = store := by
  unfold processStep
  rw [if_pos hp]

theorem processStep_store (intent : Intent) (labels : List LabelSelector) (store : GenericMap)
    (p : PodProcess) (hp : p.Command ≠ pauseCommand) :
    processStep intent labels store p =
      mapSet store (intentKey intent.PodID p.PID) [newSchedulingIntent intent labels p] := by
  unfold processStep
  rw [if_neg hp]
  rfl

theorem newSchedulingIntent_congr (intent : Intent) (labels : List LabelSelector)
    (p q : PodProcess) (h : p.PID = q.PID) :
    newSchedulingIntent intent labels p = newSchedulingIntent intent labels q := by
  unfold newSchedulingIntent
  rw [h]

theorem foldl_processStep_get_other (intent : Intent) (labels : List LabelSelector)
    (k : Str) (procs : List PodProcess) :
    ∀ store : GenericMap,
      (∀ p ∈ procs, p.Command ≠ pauseCommand → intentKey intent.PodID p.PID ≠ k) →
      mapGet (procs.foldl (processStep intent labels) store) k = mapGet store k := by
  induction procs with
  | nil => intro store _; rfl
  | cons q qs ih =>
    intro store h
    rw [List.foldl_cons, ih _ (fun p hp => h p (List.mem_cons_of_mem _ hp))]
    by_cases hq : q.Command = pauseCommand
    · rw [processStep_pause _ _ _ _ hq]
    · rw [processStep_store _ _ _ _ hq]
      exact mapGet_mapSet_other _ _ _ _ (fun e => h q (List.mem_cons_self _ _) hq e.symm)

theorem foldl_processStep_get (intent : Intent) (labels : List LabelSelector)
    (procs : List PodProcess) (store : GenericMap) (p : PodProcess) (hp : p ∈ procs)
    (hcmd : p.Command ≠ pauseCommand) :
    mapGet (procs.foldl (processStep intent labels) store) (intentKey intent.PodID p.PID) =
      some [newSchedulingIntent intent labels p] := by
  induction procs using List.reverseRecOn with
  | nil => exact absurd hp (List.not_mem_nil _)
  | append_singleton l q ih =>
    rw [List.foldl_append, List.foldl_cons, List.foldl_nil]
    by_cases hq : q.Command ≠ pauseCommand ∧
        intentKey intent.PodID q.PID = intentKey intent.PodID p.PID
    · rw [processStep_store _ _ _ _ hq.1, hq.2, mapGet_mapSet_self,
        newSchedulingIntent_congr intent labels q p (intentKey_injective_pid _ _ _ hq.2)]
    · have hpl : p ∈ l := by
        rw [List.mem_append, List.mem_singleton] at hp
        rcases hp with h | h
        · exact h
        · exact absurd ⟨h ▸ hcmd, by rw [h]⟩ hq
      by_cases hq1 : q.Command = pauseCommand
      · rw [processStep_pause _ _ _ _ hq1]
        exact ih hpl
      · rw [processStep_store _ _ _ _ hq1, mapGet_mapSet_other _ _ _ _
          (fun e => hq ⟨hq1, e.symm⟩)]
        exact ih hpl

theorem foldl_processStep_keys (intent : Intent) (labels : List LabelSelector)
    (procs : List PodProcess) :
    ∀ store : GenericMap, (mapKeys store).Nodup →
      (mapKeys (procs.foldl (processStep intent labels) store)).Nodup ∧
      ∀ k, k ∈ mapKeys (procs.foldl (processStep intent labels) store) ↔
        k ∈ mapKeys store ∨
          ∃ p ∈ procs, p.Command ≠ pauseCommand ∧ k = intentKey intent.PodID p.PID := by
  induction procs with
  | nil =>
    intro store hnd
    refine ⟨hnd, fun k => ?_⟩
    simp only [List.foldl_nil, List.not_mem_nil, false_and, exists_false, or_false]
  | cons q qs ih =>
    intro store hnd
    rw [List.foldl_cons]
    by_cases hq : q.Command = pauseCommand
    · rw [processStep_pause _ _ _ _ hq]
      obtain ⟨h1, h2⟩ := ih store hnd
      refine ⟨h1, fun k => ?_⟩
      rw [h2 k]
      constructor
      · rintro (h | ⟨p, hp, hc, hk⟩)
        · exact Or.inl h
        · exact Or.inr ⟨p, List.mem_cons_of_mem _ hp, hc, hk⟩
      · rintro (h | ⟨p, hp, hc, hk⟩)
        · exact Or.inl h
        · rw [List.mem_cons] at hp
          rcases hp with hp | hp
          · exact absurd (hp ▸ hq) hc
          · exact Or.inr ⟨p, hp, hc, hk⟩
    · rw [processStep_store _ _ _ _ hq]
      have hkeys := mapKeys_mapSet store (intentKey intent.PodID q.PID)
        [newSchedulingIntent intent labels q]
      have hnd1 : (mapKeys (mapSet store (intentKey intent.PodID q.PID)
          [newSchedulingIntent intent labels q])).Nodup := by
        rw [hkeys]
        by_cases hm : intentKey intent.PodID q.PID ∈ mapKeys store
        · rw [if_pos hm]; exact hnd
        · rw [if_neg hm]
          exact List.Nodup.append hnd (List.nodup_singleton _)
            (by
              intro x hx hx1
              rw [List.mem_singleton] at hx1
              exact hm (hx1 ▸ hx))
      have hmem : ∀ k, k ∈ mapKeys (mapSet store (intentKey intent.PodID q.PID)
          [newSchedulingIntent intent labels q]) ↔
            k ∈ mapKeys store ∨ k = intentKey intent.PodID q.PID := by
        intro k
        rw [hkeys]
        by_cases hm : intentKey intent.PodID q.PID ∈ mapKeys store
        · rw [if_pos hm]
          constructor
          · exact Or.inl
          · rintro (h | h)
            · exact h
            · exact h ▸ hm
        · rw [if_neg hm, List.mem_append, List.mem_singleton]
      obtain ⟨h1, h2⟩ := ih _ hnd1
      refine ⟨h1, fun k => ?_⟩
      rw [h2 k, hmem k]
      constructor
      · rintro ((h | h) | ⟨p, hp, hc, hk⟩)
        · exact Or.inl h
        · exact Or.inr ⟨q, List.mem_cons_self _ _, hq, h⟩
        · exact Or.inr ⟨p, List.mem_cons_of_mem _ hp, hc, hk⟩
      · rintro (h | ⟨p, hp, hc, hk⟩)
        · exact Or.inl (Or.inl h)
        · rw [List.mem_cons] at hp
          rcases hp with hp | hp
          · exact Or.inl (Or.inr (hp ▸ hk))
          · exact Or.inr ⟨p, hp, hc, hk⟩

theorem foldl_processStep_all_pause (intent : Intent) (labels : List LabelSelector)
    (procs : List PodProcess) (store : GenericMap)
    (h : ∀ p ∈ procs, p.Command = pauseCommand) :
    procs.foldl (processStep intent labels) store = store := by
  induction procs with
  | nil => rfl
  | cons q qs ih =>
    rw [List.foldl_cons, processStep_pause _ _ _ _ (h q (List.mem_cons_self _ _))]
    exact ih (fun p hp => h p (List.mem_cons_of_mem _ hp))

theorem intentStep_none (podInfos : GoMap PodInfo) (store : GenericMap) (intent : Intent)
    (h : mapGet podInfos intent.PodID = none) : intentStep podInfos store intent = store := by
  unfold intentStep
  simp only [h]

theorem intentStep_some (podInfos : GoMap PodInfo) (store : GenericMap) (intent : Intent)
    (info : PodInfo) (h : mapGet podInfos intent.PodID = some info) :
    intentStep podInfos store intent =
      info.Processes.foldl (processStep intent (intentLabels intent)) store := by
  unfold intentStep
  simp only [h]
  by_cases hl : info.Processes.length > 0
  · rw [if_pos hl]
  · rw [if_neg hl]
    have : info.Processes = [] := List.length_eq_zero.1 (by omega)
    rw [this]
    rfl

theorem foldl_intentStep_get_other (podInfos : GoMap PodInfo) (k : Str)
    (intents : List Intent) :
    ∀ store : GenericMap,
      (∀ j ∈ intents, ∀ info, mapGet podInfos j.PodID = some info →
        ∀ q ∈ info.Processes, q.Command ≠ pauseCommand → intentKey j.PodID q.PID ≠ k) →
      mapGet (intents.foldl (intentStep podInfos) store) k = mapGet store k := by
  induction intents with
  | nil => intro store _; rfl
  | cons j js ih =>
    intro store h
    rw [List.foldl_cons, ih _ (fun i hi => h i (List.mem_cons_of_mem _ hi))]
    cases hj : mapGet podInfos j.PodID with
    | none => rw [intentStep_none _ _ _ hj]
    | some info =>
      rw [intentStep_some _ _ _ _ hj]
      exact foldl_processStep_get_other _ _ _ _ _ (h j (List.mem_cons_self _ _) info hj)

theorem ProcessIntents_of_ok (fs : FileSystem) (svc : Service) (intents : List Intent)
    (podInfos : GoMap PodInfo) (hdisc : GetAllPodInfos fs = .ok podInfos) :
    ProcessIntents fs svc intents =
      (.ok (),
       { svc with
         schedulingIntentsMap := intents.foldl (intentStep podInfos) svc.schedulingIntentsMap })
    := by
  unfold ProcessIntents
  rw [hdisc]

theorem mem_nonPauseProcesses (info : PodInfo) (p : PodProcess) :
    p ∈ nonPauseProcesses info ↔ p ∈ info.Processes ∧ p.Command ≠ pauseCommand := by
  unfold nonPauseProcesses
  rw [List.mem_filter, decide_eq_true_eq]

/-! ## Discovery on the concrete process tables -/

set_option maxRecDepth 100000 in
theorem exampleFS_discovery : GetAllPodInfos exampleFS = .ok [(exampleUID, exampleInfo)] := by
  rfl

theorem twoLineFS_discovery :
    GetAllPodInfos twoLineFS =
      .ok [("1-2-3-4-5".toList,
        { PodUID := "1-2-3-4-5".toList, Processes := [bareProcess 7, bareProcess 7] })] := by
  rfl

theorem signedFS_discovery :
    GetAllPodInfos signedFS =
      .ok [("1".toList, { PodUID := "1".toList, Processes := [bareProcess (-5)] }),
        ("1-".toList, { PodUID := "1-".toList, Processes := [bareProcess 5] })] := by
  rfl

/-! ## C5: one intent on an empty store -/

/-- C5, as stated, fails. On `twoLineFS` the control-group file of process 7 has two lines of
the pod hierarchy, so discovery lists the process twice in the pod `1-2-3-4-5`: the pod has
two entries with a `Command` other than `pause`. One intent for that pod on an empty store
leaves one stored entry, not two. -/
theorem ProcessIntents_single_intent_counterexample :
    GetAllPodInfos twoLineFS =
      .ok [("1-2-3-4-5".toList,
        { PodUID := "1-2-3-4-5".toList, Processes := [bareProcess 7, bareProcess 7] })] ∧
    (nonPauseProcesses
      { PodUID := "1-2-3-4-5".toList, Processes := [bareProcess 7, bareProcess 7] }).length
      = 2 ∧
    (ProcessIntents twoLineFS emptyService [smallIntent]).2.schedulingIntentsMap.length = 1 := by
  refine ⟨twoLineFS_discovery, by decide, by rfl⟩

/-- C5, amended. For every discovery result and every single intent whose `PodID` maps to a
`PodInfo`, running `ProcessIntents` on an empty intent store returns no error and leaves one
stored entry for each distinct PID among the entries of `Processes` with `Command` different
from `pause`: exactly `N` entries when those `N` entries have pairwise distinct PIDs. The keys
are the strings `<PodID>-<PID>` of those entries, each holding the one `SchedulingIntent`
built for it, and every stored `SchedulingIntent` has `Priority = true` when the intent's
`Priority` is positive. -/
theorem ProcessIntents_single_intent (fs : FileSystem) (collector : MetricCollector)
    (intent : Intent) (podInfos : GoMap PodInfo) (info : PodInfo)
    (hdisc : GetAllPodInfos fs = .ok podInfos)
    (hpod : mapGet podInfos intent.PodID = some info) :
    ∃ store : GenericMap,
      ProcessIntents fs { schedulingIntentsMap := NewGenericMap, metricCollector := collector }
          [intent] =
        (.ok (), { schedulingIntentsMap := store, metricCollector := collector }) ∧
      store.length = ((nonPauseProcesses info).map PodProcess.PID).dedup.length ∧
      (((nonPauseProcesses info).map PodProcess.PID).Nodup →
        store.length = (nonPauseProcesses info).length) ∧
      (∀ key, key ∈ mapKeys store ↔
        ∃ p ∈ nonPauseProcesses info, key = intentKey intent.PodID p.PID) ∧
      (∀ p ∈ nonPauseProcesses info,
        mapGet store (intentKey intent.PodID p.PID) =
          some [newSchedulingIntent intent (intentLabels intent) p]) ∧
      (0 < intent.Priority →
        ∀ key value, mapGet store key = some value → ∀ si ∈ value, si.Priority = true) := by
  obtain ⟨hnd, hkeys⟩ := foldl_processStep_keys intent (intentLabels intent) info.Processes
    NewGenericMap List.nodup_nil
  have hmemkeys : ∀ key,
      key ∈ mapKeys (info.Processes.foldl (processStep intent (intentLabels intent))
        NewGenericMap) ↔
      ∃ p ∈ nonPauseProcesses info, key = intentKey intent.PodID p.PID := by
    intro key
    rw [hkeys key]
    constructor
    · rintro (h | ⟨p, hp, hc, hk⟩)
      · exact absurd h (List.not_mem_nil _)
      · exact ⟨p, (mem_nonPauseProcesses info p).2 ⟨hp, hc⟩, hk⟩
    · rintro ⟨p, hp, hk⟩
      obtain ⟨h1, h2⟩ := (mem_nonPauseProcesses info p).1 hp
      exact Or.inr ⟨p, h1, h2, hk⟩
  have hget : ∀ p ∈ nonPauseProcesses info,
      mapGet (info.Processes.foldl (processStep intent (intentLabels intent)) NewGenericMap)
        (intentKey intent.PodID p.PID) =
          some [newSchedulingIntent intent (intentLabels intent) p] := by
    intro p hp
    obtain ⟨h1, h2⟩ := (mem_nonPauseProcesses info p).1 hp
    exact foldl_processStep_get intent _ info.Processes _ p h1 h2
  have hlen : (info.Processes.foldl (processStep intent (intentLabels intent))
      NewGenericMap).length = ((nonPauseProcesses info).map PodProcess.PID).dedup.length := by
    have h1 : (info.Processes.foldl (processStep intent (intentLabels intent))
        NewGenericMap).length = (mapKeys (info.Processes.foldl
          (processStep intent (intentLabels intent)) NewGenericMap)).toFinset.card := by
      rw [List.toFinset_card_of_nodup hnd]
      unfold mapKeys
      rw [List.length_map]
    have h2 : (mapKeys (info.Processes.foldl (processStep intent (intentLabels intent))
        NewGenericMap)).toFinset =
        (((nonPauseProcesses info).map PodProcess.PID).toFinset).image
          (intentKey intent.PodID) := by
      ext key
      rw [List.mem_toFinset, hmemkeys key, Finset.mem_image]
      constructor
      · rintro ⟨p, hp, hk⟩
        exact ⟨p.PID, List.mem_toFinset.2 (List.mem_map_of_mem _ hp), hk.symm⟩
      · rintro ⟨pid, hpid, hk⟩
        obtain ⟨p, hp, hpp⟩ := List.mem_map.1 (List.mem_toFinset.1 hpid)
        exact ⟨p, hp, by rw [hpp, hk]⟩
    rw [h1, h2, Finset.card_image_of_injective _
      (fun a b h => intentKey_injective_pid intent.PodID a b h), List.card_toFinset]
  refine ⟨info.Processes.foldl (processStep intent (intentLabels intent)) NewGenericMap,
    ?_, hlen, ?_, hmemkeys, hget, ?_⟩
  · rw [ProcessIntents_of_ok fs _ [intent] podInfos hdisc]
    simp only [List.foldl_cons, List.foldl_nil]
    rw [intentStep_some _ _ _ _ hpod]
  · intro hnodup
    rw [hlen, List.Nodup.dedup hnodup, List.length_map]
  · intro hprio key value hval si hsi
    have hk : key ∈ mapKeys (info.Processes.foldl (processStep intent (intentLabels intent))
        NewGenericMap) := by
      unfold mapKeys
      exact List.mem_map.2 ⟨(key, value), mem_of_mapGet _ _ _ hval, rfl⟩
    obtain ⟨p, hp, hkp⟩ := (hmemkeys key).1 hk
    rw [hkp, hget p hp, Option.some.injEq] at hval
    rw [← hval, List.mem_singleton] at hsi
    rw [hsi]
    unfold newSchedulingIntent
    simp only [gt_iff_lt, decide_eq_true_eq]
    exact hprio

/-- The amended C5 on `exampleFS`: the pod has three processes that are not the pause
process, with distinct PIDs, and the intent has priority 5; three entries are stored. -/
theorem ProcessIntents_single_intent_witness :
    ∃ store : GenericMap,
      ProcessIntents exampleFS emptyService [exampleIntent] =
        (.ok (), { schedulingIntentsMap := store, metricCollector := NewMetricCollector [] }) ∧
      store.length = 3 := by
  obtain ⟨store, h1, -, h3, -⟩ :=
    ProcessIntents_single_intent exampleFS (NewMetricCollector []) exampleIntent
      [(exampleUID, exampleInfo)] exampleInfo exampleFS_discovery (by decide)
  exact ⟨store, h1, h3 (by decide)⟩

/-! ## C6: the stored scheduling intent -/

/-- C6, as stated, fails. On `signedFS` the pod `1` has the process -5 and the pod `1-` has
the process 5, and both give the key `1--5`. In the batch of `intentPodOne` and
`intentPodOneHyphen` exactly one intent targets the pod `1`, yet after `ProcessIntents` the
key of its process -5 holds the record built for the other pod: PID 5, priority false. -/
theorem ProcessIntents_stored_intent_counterexample :
    GetAllPodInfos signedFS =
      .ok [("1".toList, { PodUID := "1".toList, Processes := [bareProcess (-5)] }),
        ("1-".toList, { PodUID := "1-".toList, Processes := [bareProcess 5] })] ∧
    intentKey intentPodOne.PodID (-5) = "1--5".toList ∧
    mapGet (ProcessIntents signedFS emptyService
        [intentPodOne, intentPodOneHyphen]).2.schedulingIntentsMap
      (intentKey intentPodOne.PodID (-5)) =
      some [{ Priority := false, ExecutionTime := 2, PID := 5, CommandRegex := "b".toList,
              Selectors := [] }] := by
  refine ⟨signedFS_discovery, by rfl, by rfl⟩

/-- C6, amended. Let every discovered PID be non-negative. For every batch in which exactly
one intent targets a given discovered pod, and for every process of that pod whose `Command`
is not `pause`, `ProcessIntents` returns no error and afterwards the store holds at key
`<PodID>-<PID>` a list of exactly one `SchedulingIntent`, with `PID` equal to the process PID,
`Priority` equal to `Intent.Priority > 0`, `CommandRegex` equal to the intent's,
`ExecutionTime` equal to the intent's `ExecutionTime` modulo `2 ^ 64` (numerically equal for
every non-negative value of a Go `int`), and `Selectors` holding one key/value pair per entry
of `PodLabels`; this holds whatever the store held before the call. -/
theorem ProcessIntents_stored_intent (fs : FileSystem) (svc : Service)
    (pre post : List Intent) (intent : Intent) (podInfos : GoMap PodInfo) (info : PodInfo)
    (p : PodProcess)
    (hdisc : GetAllPodInfos fs = .ok podInfos)
    (hpod : mapGet podInfos intent.PodID = some info)
    (hone : ∀ j ∈ pre ++ post, j.PodID ≠ intent.PodID)
    (hp : p ∈ info.Processes) (hcmd : p.Command ≠ pauseCommand)
    (hnn : AllPIDs (fun pid => 0 ≤ pid) podInfos) :
    (ProcessIntents fs svc (pre ++ intent :: post)).1 = .ok () ∧
    ∃ si : SchedulingIntents,
      mapGet (ProcessIntents fs svc (pre ++ intent :: post)).2.schedulingIntentsMap
        (intentKey intent.PodID p.PID) = some [si] ∧
      si.PID = p.PID ∧
      si.Priority = decide (intent.Priority > 0) ∧
      si.CommandRegex = intent.CommandRegex ∧
      (si.ExecutionTime : Int) = intent.ExecutionTime % 2 ^ 64 ∧
      (0 ≤ intent.ExecutionTime → intent.ExecutionTime ≤ maxInt →
        (si.ExecutionTime : Int) = intent.ExecutionTime) ∧
      si.Selectors =
        intent.PodLabels.map (fun kv => ({ Key := kv.1, Value := kv.2 } : LabelSelector)) := by
  have hpnn : 0 ≤ p.PID := hnn _ (mem_of_mapGet _ _ _ hpod) p hp
  have hpost : ∀ j ∈ post, ∀ info1, mapGet podInfos j.PodID = some info1 →
      ∀ q ∈ info1.Processes, q.Command ≠ pauseCommand →
        intentKey j.PodID q.PID ≠ intentKey intent.PodID p.PID := by
    intro j hj info1 hinfo1 q hq _ hkey
    have hqnn : 0 ≤ q.PID := hnn _ (mem_of_mapGet _ _ _ hinfo1) q hq
    exact hone j (List.mem_append_right _ hj)
      (intentKey_injective_of_nonneg _ _ _ _ hqnn hpnn hkey).1
  have hrun := ProcessIntents_of_ok fs svc (pre ++ intent :: post) podInfos hdisc
  have hmod : (0 : Int) ≤ intent.ExecutionTime % 2 ^ 64 :=
    Int.emod_nonneg _ (by norm_num)
  refine ⟨by rw [hrun], newSchedulingIntent intent (intentLabels intent) p, ?_, rfl, rfl, rfl,
    ?_, ?_, intentLabels_eq_map intent⟩
  · rw [hrun]
    simp only
    rw [List.foldl_append, List.foldl_cons, foldl_intentStep_get_other podInfos _ post _ hpost,
      intentStep_some _ _ _ _ hpod]
    exact foldl_processStep_get intent _ info.Processes _ p hp hcmd
  · unfold newSchedulingIntent
    simp only
    exact Int.toNat_of_nonneg hmod
  · intro h0 hmax
    unfold newSchedulingIntent
    simp only
    rw [Int.toNat_of_nonneg hmod]
    apply Int.emod_eq_of_lt h0
    unfold maxInt at hmax
    omega

/-- The amended C6 on `exampleFS`, for the batch of `strayIntent` and `exampleIntent` and the
process 7 of the pod of the worked example. -/
theorem ProcessIntents_stored_intent_witness :
    (ProcessIntents exampleFS emptyService ([strayIntent] ++ exampleIntent :: [])).1 = .ok () ∧
    ∃ si : SchedulingIntents,
      mapGet (ProcessIntents exampleFS emptyService
          ([strayIntent] ++ exampleIntent :: [])).2.schedulingIntentsMap
        (intentKey exampleIntent.PodID 7) = some [si] ∧
      si.PID = 7 ∧
      si.Priority = decide (exampleIntent.Priority > 0) ∧
      si.CommandRegex = exampleIntent.CommandRegex ∧
      (si.ExecutionTime : Int) = exampleIntent.ExecutionTime % 2 ^ 64 ∧
      (0 ≤ exampleIntent.ExecutionTime → exampleIntent.ExecutionTime ≤ maxInt →
        (si.ExecutionTime : Int) = exampleIntent.ExecutionTime) ∧
      si.Selectors =
        exampleIntent.PodLabels.map
          (fun kv => ({ Key := kv.1, Value := kv.2 } : LabelSelector)) :=
  ProcessIntents_stored_intent exampleFS emptyService [strayIntent] [] exampleIntent
    [(exampleUID, exampleInfo)] exampleInfo (exampleProcess 7 1 "nginx".toList)
    exampleFS_discovery (by decide) (by decide) (by decide) (by decide)
    (by
      intro kv hkv q hq
      rw [List.mem_singleton] at hkv
      rw [hkv] at hq
      have hall : exampleInfo.Processes.all (fun r => decide (0 ≤ r.PID)) = true := by decide
      exact of_decide_eq_true (List.all_eq_true.1 hall q hq))

/-! ## C7: intents without a matching process -/

/-- C7. For every discovery result and every intent whose `PodID` is not a key of the
discovered pod map, or whose pod has no process other than pause processes, the step of
`ProcessIntents` for that intent leaves every store as it is; and for a batch consisting only
of such intents `ProcessIntents` returns no error and the service, with its intent store, is
after the call identical to what it was before. -/
theorem ProcessIntents_no_matching_process (fs : FileSystem) (svc : Service)
    (intents : List Intent) (podInfos : GoMap PodInfo)
    (hdisc : GetAllPodInfos fs = .ok podInfos)
    (hall : ∀ intent ∈ intents, intent.PodID ∉ mapKeys podInfos ∨
      ∃ info, mapGet podInfos intent.PodID = some info ∧
        ∀ p ∈ info.Processes, p.Command = pauseCommand) :
    (∀ intent ∈ intents, ∀ store : GenericMap, intentStep podInfos store intent = store) ∧
    ProcessIntents fs svc intents = (.ok (), svc) := by
  have hstep : ∀ intent ∈ intents, ∀ store : GenericMap,
      intentStep podInfos store intent = store := by
    intro j hj store
    rcases hall j hj with h | ⟨info, hinfo, hp⟩
    · exact intentStep_none _ _ _ ((mapGet_eq_none_iff _ _).2 h)
    · rw [intentStep_some _ _ _ _ hinfo]
      exact foldl_processStep_all_pause _ _ _ _ hp
  have hfold : ∀ (js : List Intent), (∀ j ∈ js, j ∈ intents) → ∀ store : GenericMap,
      js.foldl (intentStep podInfos) store = store := by
    intro js
    induction js with
    | nil => intro _ store; rfl
    | cons j js ih =>
      intro hsub store
      rw [List.foldl_cons, hstep j (hsub j (List.mem_cons_self _ _)) store]
      exact ih (fun i hi => hsub i (List.mem_cons_of_mem _ hi)) store
  refine ⟨hstep, ?_⟩
  rw [ProcessIntents_of_ok fs svc intents podInfos hdisc, hfold intents (fun _ h => h)]

/-- C7 on `exampleFS`: the intent `strayIntent` targets a pod that is not discovered. -/
theorem ProcessIntents_no_matching_process_witness :
    ProcessIntents exampleFS emptyService [strayIntent] = (.ok (), emptyService) :=
  (ProcessIntents_no_matching_process exampleFS emptyService [strayIntent]
    [(exampleUID, exampleInfo)] exampleFS_discovery
    (by
      intro intent hi
      rw [List.mem_singleton] at hi
      rw [hi]
      exact Or.inl (by decide))).2

/-! ## The loops of `FindPodInfoFrom` -/

theorem scanCgroupLines_cons (fs : FileSystem) (rootDir : Str) (pid : Int)
    (podMap : GoMap PodInfo) (line : Str) (rest : List Str) :
    scanCgroupLines fs rootDir pid podMap (line :: rest) =
      if Contains line "kubepods".toList then
        match parseCgroupToPodInfo fs rootDir line pid podMap with
        | (.error _, podMap1) => podMap1
        | (.ok _, podMap1) => scanCgroupLines fs rootDir pid podMap1 rest
      else scanCgroupLines fs rootDir pid podMap rest := rfl

theorem scanCgroupLines_not_candidate (fs : FileSystem) (rootDir : Str) (pid : Int)
    (lines : List Str) (podMap : GoMap PodInfo)
    (h : ∀ l ∈ lines, Contains l "kubepods".toList = false) :
    scanCgroupLines fs rootDir pid podMap lines = podMap := by
  induction lines with
  | nil => rfl
  | cons l ls ih =>
    rw [scanCgroupLines_cons, h l (List.mem_cons_self _ _)]
    simp only [Bool.false_eq_true, if_false]
    exact ih (fun x hx => h x (List.mem_cons_of_mem _ hx))

theorem scanCgroupLines_append_failed (fs : FileSystem) (rootDir : Str) (pid : Int)
    (bad : Str) (post : List Str) (err : String)
    (hcand : Contains bad "kubepods".toList = true)
    (hbad : ∀ podMap, parseCgroupToPodInfo fs rootDir bad pid podMap = (.error err, podMap))
    (pre : List Str) :
    ∀ podMap, scanCgroupLines fs rootDir pid podMap (pre ++ bad :: post) =
      scanCgroupLines fs rootDir pid podMap pre := by
  induction pre with
  | nil =>
    intro podMap
    rw [List.nil_append, scanCgroupLines_cons, if_pos hcand, hbad]
    rfl
  | cons l ls ih =>
    intro podMap
    rw [List.cons_append, scanCgroupLines_cons, scanCgroupLines_cons]
    by_cases hl : Contains l "kubepods".toList = true
    · rw [if_pos hl, if_pos hl]
      rcases hparse : parseCgroupToPodInfo fs rootDir l pid podMap with ⟨r, podMap1⟩
      cases r with
      | error e => rfl
      | ok u => exact ih podMap1
    · rw [if_neg hl, if_neg hl]
      exact ih podMap

theorem parseCgroupToPodInfo_allPIDs (P : Int → Prop) (fs : FileSystem) (rootDir line : Str)
    (pid : Int) (podMap : GoMap PodInfo) (hpid : P pid) (hm : AllPIDs P podMap) :
    AllPIDs P (parseCgroupToPodInfo fs rootDir line pid podMap).2 := by
  by_cases hfields : 3 ≤ (Split line ':').length
  · cases hg : getPodInfoFromCgroup ((Split line ':').getD 2 []) with
    | error err =>
      rw [parseCgroupToPodInfo_of_error fs rootDir line pid podMap err hfields hg]
      exact hm
    | ok r =>
      obtain ⟨podUID, containerID⟩ := r
      obtain ⟨process, -, hppid, hparse⟩ :=
        parseCgroupToPodInfo_of_ok fs rootDir line pid podMap podUID containerID hfields hg
      rw [hparse]
      intro kv hkv q hq
      rcases mem_mapSet _ _ _ _ hkv with h | h
      · exact hm kv h q hq
      · rw [h] at hq
        cases hget : mapGet podMap podUID with
        | none =>
          rw [hget] at hq
          simp only [List.mem_singleton] at hq
          rw [hq]
          exact hppid ▸ hpid
        | some podInfo =>
          rw [hget] at hq
          simp only [List.mem_append, List.mem_singleton] at hq
          rcases hq with hq | hq
          · exact hm _ (mem_of_mapGet _ _ _ hget) q hq
          · rw [hq]
            exact hppid ▸ hpid
  · rw [parseCgroupToPodInfo_of_short fs rootDir line pid podMap (by omega)]
    exact hm

theorem scanCgroupLines_allPIDs (P : Int → Prop) (fs : FileSystem) (rootDir : Str)
    (pid : Int) (hpid : P pid) (lines : List Str) :
    ∀ podMap, AllPIDs P podMap → AllPIDs P (scanCgroupLines fs rootDir pid podMap lines) := by
  induction lines with
  | nil => intro podMap hm; exact hm
  | cons l ls ih =>
    intro podMap hm
    rw [scanCgroupLines_cons]
    by_cases hl : Contains l "kubepods".toList = true
    · rw [if_pos hl]
      have hparse := parseCgroupToPodInfo_allPIDs P fs rootDir l pid podMap hpid hm
      rcases hp : parseCgroupToPodInfo fs rootDir l pid podMap with ⟨r, podMap1⟩
      rw [hp] at hparse
      cases r with
      | error e => exact hparse
      | ok u => exact ih podMap1 hparse
    · rw [if_neg hl]
      exact ih podMap hm

theorem scanEntry_skip (fs : FileSystem) (rootDir : Str) (podMap : GoMap PodInfo)
    (e : DirEntry) (h : acceptedEntry e = false) : scanEntry fs rootDir podMap e = podMap := by
  unfold scanEntry
  unfold acceptedEntry at h
  by_cases hd : e.IsDir = true
  · rw [hd] at h
    cases ha : Atoi e.Name with
    | error err => simp only [hd, Bool.not_true, Bool.false_eq_true, if_false]
    | ok v =>
      rw [ha] at h
      exact absurd h (by simp)
  · simp only [hd, Bool.not_eq_true] at hd ⊢
    simp only [hd, Bool.not_false, if_true]

theorem scanEntry_accepted (fs : FileSystem) (rootDir : Str) (podMap : GoMap PodInfo)
    (e : DirEntry) (pid : Int) (hd : e.IsDir = true) (ha : Atoi e.Name = .ok pid) :
    scanEntry fs rootDir podMap e =
      match fs.Open (rootDir ++ "/".toList ++ formatInt pid ++ "/cgroup".toList) with
      | none => podMap
      | some lines => scanCgroupLines fs rootDir pid podMap lines := by
  unfold scanEntry
  simp only [hd, Bool.not_true, Bool.false_eq_true, if_false, ha]

theorem scanEntry_allPIDs (P : Int → Prop) (fs : FileSystem) (rootDir : Str)
    (podMap : GoMap PodInfo) (e : DirEntry)
    (hP : ∀ pid, e.IsDir = true → Atoi e.Name = .ok pid → P pid) (hm : AllPIDs P podMap) :
    AllPIDs P (scanEntry fs rootDir podMap e) := by
  by_cases hd : e.IsDir = true
  · cases ha : Atoi e.Name with
    | error err =>
      rw [scanEntry_skip fs rootDir podMap e (by unfold acceptedEntry; rw [ha]; simp)]
      exact hm
    | ok pid =>
      rw [scanEntry_accepted fs rootDir podMap e pid hd ha]
      cases fs.Open (rootDir ++ "/".toList ++ formatInt pid ++ "/cgroup".toList) with
      | none => exact hm
      | some lines => exact scanCgroupLines_allPIDs P fs rootDir pid (hP pid hd ha) lines _ hm
  · rw [scanEntry_skip fs rootDir podMap e (by unfold acceptedEntry; simp [hd])]
    exact hm

theorem foldl_scanEntry_allPIDs (P : Int → Prop) (fs : FileSystem) (rootDir : Str)
    (entries : List DirEntry)
    (hP : ∀ e ∈ entries, ∀ pid, e.IsDir = true → Atoi e.Name = .ok pid → P pid) :
    ∀ podMap, AllPIDs P podMap → AllPIDs P (entries.foldl (scanEntry fs rootDir) podMap) := by
  induction entries with
  | nil => intro podMap hm; exact hm
  | cons e es ih =>
    intro podMap hm
    rw [List.foldl_cons]
    exact ih (fun x hx => hP x (List.mem_cons_of_mem _ hx)) _
      (scanEntry_allPIDs P fs rootDir podMap e (hP e (List.mem_cons_self _ _)) hm)

theorem foldl_scanEntry_filter (fs : FileSystem) (rootDir : Str) (entries : List DirEntry) :
    ∀ podMap, entries.foldl (scanEntry fs rootDir) podMap =
      (entries.filter acceptedEntry).foldl (scanEntry fs rootDir) podMap := by
  induction entries with
  | nil => intro podMap; rfl
  | cons e es ih =>
    intro podMap
    by_cases he : acceptedEntry e = true
    · rw [List.filter_cons_of_pos he, List.foldl_cons, List.foldl_cons]
      exact ih _
    · rw [List.filter_cons_of_neg he, List.foldl_cons,
        scanEntry_skip fs rootDir podMap e (by simpa using he)]
      exact ih _

theorem allPIDs_nil (P : Int → Prop) : AllPIDs P [] := by
  intro kv hkv
  exact absurd hkv (List.not_mem_nil _)

theorem FindPodInfoFrom_of_readDir (fs : FileSystem) (rootDir : Str)
    (entries : List DirEntry) (hdir : fs.ReadDir rootDir = some entries) :
    FindPodInfoFrom fs rootDir = .ok (entries.foldl (scanEntry fs rootDir) []) := by
  unfold FindPodInfoFrom
  rw [hdir]

/-! ## C8: a candidate line without a pod UID -/

/-- C8, as stated, fails. On `failingLineFS` the control-group file of process 7 has the line
`1:name=systemd:/kubepods-pod1_2_3_4_5.slice` and then the candidate line `0::/kubepods`,
from which no pod UID can be extracted. The first line has already been parsed when the scan
stops, so PID 7 is in the `PodInfo` of the pod `1-2-3-4-5`. -/
theorem FindPodInfoFrom_failed_line_counterexample :
    Contains "0::/kubepods".toList "kubepods".toList = true ∧
    getPodInfoFromCgroup ((Split "0::/kubepods".toList ':').getD 2 []) =
      .error "pod UID not found in cgroup path" ∧
    FindPodInfoFrom failingLineFS procDir =
      .ok [("1-2-3-4-5".toList,
        { PodUID := "1-2-3-4-5".toList, Processes := [bareProcess 7] })] := by
  refine ⟨by decide, by rfl, by rfl⟩

/-- C8, amended. Let the control-group file of a process hold the lines `pre ++ bad :: post`,
where `bad` contains `kubepods`, has at least three colon-delimited fields and no segment of
its hierarchy path contains `pod` followed by a hex digit or underscore. Then the scan parses
no line after `bad`: the pod map after this process is the one obtained from the lines `pre`
alone, whatever `post` holds. When no line of `pre` contains `kubepods`, the process leaves
the pod map unchanged, and when the process is the only entry of the listing the mapping
returned by `FindPodInfoFrom` is empty. -/
theorem scanEntry_failed_line (fs : FileSystem) (rootDir : Str) (podMap : GoMap PodInfo)
    (entry : DirEntry) (pid : Int) (pre : List Str) (bad : Str) (post : List Str)
    (hd : entry.IsDir = true) (ha : Atoi entry.Name = .ok pid)
    (hopen : fs.Open (rootDir ++ "/".toList ++ formatInt pid ++ "/cgroup".toList) =
      some (pre ++ bad :: post))
    (hcand : Contains bad "kubepods".toList = true)
    (hfields : 3 ≤ (Split bad ':').length)
    (hbad : ∀ seg ∈ Split ((Split bad ':').getD 2 []) '/', ¬ ContainsPodMarker seg) :
    scanEntry fs rootDir podMap entry = scanCgroupLines fs rootDir pid podMap pre ∧
    ((∀ l ∈ pre, Contains l "kubepods".toList = false) →
      scanEntry fs rootDir podMap entry = podMap) ∧
    ((∀ l ∈ pre, Contains l "kubepods".toList = false) →
      fs.ReadDir rootDir = some [entry] → FindPodInfoFrom fs rootDir = .ok []) := by
  have hfst := foldl_step_fst_of_no_match (Split ((Split bad ':').getD 2 []) '/') ([], [])
    (fun b hb => (podRegexMatchString_eq_false_iff _).2 (hbad b hb))
  obtain ⟨err, herr⟩ := (getPodInfoFromCgroup_error_iff _).2 hfst
  have hscan : ∀ m, scanEntry fs rootDir m entry = scanCgroupLines fs rootDir pid m pre := by
    intro m
    rw [scanEntry_accepted fs rootDir m entry pid hd ha, hopen]
    exact scanCgroupLines_append_failed fs rootDir pid bad post err hcand
      (fun m1 => parseCgroupToPodInfo_of_error fs rootDir bad pid m1 err hfields herr) pre m
  refine ⟨hscan podMap, ?_, ?_⟩
  · intro hpre
    rw [hscan podMap]
    exact scanCgroupLines_not_candidate fs rootDir pid pre podMap hpre
  · intro hpre hdir
    rw [FindPodInfoFrom_of_readDir fs rootDir [entry] hdir, List.foldl_cons, List.foldl_nil,
      hscan []]
    rw [scanCgroupLines_not_candidate fs rootDir pid pre [] hpre]

/-- The amended C8 on `failingFirstFS`: the line `0::/kubepods` comes first, and the
well-formed pod line after it is never parsed. -/
theorem scanEntry_failed_line_witness : FindPodInfoFrom failingFirstFS procDir = .ok [] :=
  (scanEntry_failed_line failingFirstFS procDir [] ⟨"7".toList, true⟩ 7 []
    "0::/kubepods".toList ["1:name=systemd:/kubepods-pod1_2_3_4_5.slice".toList]
    rfl (by rfl) (by rfl) (by decide) (by decide)
    (by
      intro seg hseg
      have hall : (Split ((Split "0::/kubepods".toList ':').getD 2 []) '/').all
          (fun s => !podRegexMatchString s) = true := by decide
      have hseg1 := List.all_eq_true.1 hall seg hseg
      exact (podRegexMatchString_eq_false_iff seg).1 (by simpa using hseg1))).2.2
    (by intro l hl; exact absurd hl (List.not_mem_nil _)) (by rfl)

/-! ## C9: the entries of the listing -/

/-- C9, as stated, fails. `strconv.Atoi` accepts the names `-5`, `0`, `+7` and `007`. On
`oddNamesFS` the directories `-5`, `0` and `007` are not skipped: each contributes a process,
with PID -5, 0 and 7; so the mapping returned holds PIDs that are not positive. -/
theorem FindPodInfoFrom_entries_counterexample :
    Atoi "-5".toList = .ok (-5) ∧ Atoi "0".toList = .ok 0 ∧ Atoi "+7".toList = .ok 7 ∧
    Atoi "007".toList = .ok 7 ∧
    FindPodInfoFrom oddNamesFS procDir =
      .ok [("1-2-3-4-5".toList,
        { PodUID := "1-2-3-4-5".toList,
          Processes := [bareProcess (-5), bareProcess 0, bareProcess 7, bareProcess 7] })] := by
  refine ⟨by rfl, by rfl, by rfl, by rfl, by rfl⟩

/-- C9, amended. For every listing of the process-table root, an entry that is not a
directory, or whose name `strconv.Atoi` rejects (any name other than an optional sign followed
by decimal digits with a value in the range of `int`; for example `acpi`), is skipped by
`FindPodInfoFrom` and contributes no process: the result is the one for the listing without
these entries. Every `PodProcess` in the returned mapping has as PID the value that
`strconv.Atoi` gives for the name of a listed directory; consequently every PID is positive
whenever every listed directory name that `strconv.Atoi` accepts denotes a positive
integer. -/
theorem FindPodInfoFrom_entries (fs : FileSystem) (rootDir : Str) (entries : List DirEntry)
    (hdir : fs.ReadDir rootDir = some entries) :
    (∀ podMap e, (e.IsDir = false ∨ ∃ err, Atoi e.Name = .error err) →
      scanEntry fs rootDir podMap e = podMap) ∧
    FindPodInfoFrom fs rootDir =
      .ok ((entries.filter acceptedEntry).foldl (scanEntry fs rootDir) []) ∧
    ∃ podMap, FindPodInfoFrom fs rootDir = .ok podMap ∧
      AllPIDs (fun pid => ∃ e ∈ entries, e.IsDir = true ∧ Atoi e.Name = .ok pid) podMap ∧
      ((∀ e ∈ entries, ∀ pid, e.IsDir = true → Atoi e.Name = .ok pid → 0 < pid) →
        AllPIDs (fun pid => 0 < pid) podMap) := by
  have hrun := FindPodInfoFrom_of_readDir fs rootDir entries hdir
  refine ⟨?_, ?_, entries.foldl (scanEntry fs rootDir) [], hrun, ?_, ?_⟩
  · intro podMap e he
    apply scanEntry_skip
    unfold acceptedEntry
    rcases he with h | ⟨err, h⟩
    · rw [h]; rfl
    · rw [h]; simp
  · rw [hrun, foldl_scanEntry_filter]
  · exact foldl_scanEntry_allPIDs _ fs rootDir entries
      (fun e he pid hd ha => ⟨e, he, hd, ha⟩) [] (allPIDs_nil _)
  · intro hpos
    exact foldl_scanEntry_allPIDs _ fs rootDir entries hpos [] (allPIDs_nil _)

/-- The amended C9 on `exampleFS`: the entries `acpi` and `uptime` are skipped. -/
theorem FindPodInfoFrom_entries_witness :
    FindPodInfoFrom exampleFS procDir =
      .ok (([⟨"10".toList, true⟩, ⟨"7".toList, true⟩, ⟨"8".toList, true⟩,
          ⟨"9".toList, true⟩, ⟨"acpi".toList, true⟩,
          ⟨"uptime".toList, false⟩].filter acceptedEntry).foldl
        (scanEntry exampleFS procDir) []) ∧
    acceptedEntry ⟨"acpi".toList, true⟩ = false ∧
    acceptedEntry ⟨"uptime".toList, false⟩ = false :=
  ⟨(FindPodInfoFrom_entries exampleFS procDir _ rfl).2.1, by decide, by decide⟩

/-! ## White space: trimming and fields -/

theorem TrimSpace_isWhitespaceTrim (d : Str) : IsWhitespaceTrim (TrimSpace d) d := by
  have hd : d = d.takeWhile isSpace ++ d.dropWhile isSpace :=
    (List.takeWhile_append_dropWhile isSpace d).symm
  have hx : (d.dropWhile isSpace).reverse =
      (d.dropWhile isSpace).reverse.takeWhile isSpace ++
        (d.dropWhile isSpace).reverse.dropWhile isSpace :=
    (List.takeWhile_append_dropWhile isSpace _).symm
  have hx1 : d.dropWhile isSpace =
      TrimSpace d ++ ((d.dropWhile isSpace).reverse.takeWhile isSpace).reverse := by
    have := congrArg List.reverse hx
    rw [List.reverse_reverse, List.reverse_append] at this
    exact this
  refine ⟨⟨d.takeWhile isSpace,
    ((d.dropWhile isSpace).reverse.takeWhile isSpace).reverse, ?_, ?_, ?_⟩, ?_, ?_⟩
  · rw [List.append_assoc, ← hx1]
    exact hd
  · intro c hc
    exact List.mem_takeWhile_imp hc
  · intro c hc
    exact List.mem_takeWhile_imp (List.mem_reverse.1 hc)
  · intro c hc
    have hhead : (d.dropWhile isSpace).head? = some c := by
      rw [hx1]
      cases ht : TrimSpace d with
      | nil => rw [ht] at hc; exact absurd hc (by simp)
      | cons a t =>
        rw [ht] at hc
        simpa using hc
    have := List.head?_dropWhile_not isSpace d
    rw [hhead] at this
    exact this
  · intro c hc
    have hlast : ((d.dropWhile isSpace).reverse.dropWhile isSpace).head? = some c := by
      unfold TrimSpace at hc
      rw [List.getLast?_reverse] at hc
      exact hc
    have := List.head?_dropWhile_not isSpace (d.dropWhile isSpace).reverse
    rw [hlast] at this
    exact this

theorem fieldsAux_eq (s : Str) : ∀ cur : Str,
    fieldsAux s cur =
      (((s.splitOnP isSpace).modifyHead (cur.reverse ++ ·)).filter (fun f => !f.isEmpty)) := by
  induction s with
  | nil =>
    intro cur
    rw [List.splitOnP_nil]
    cases cur with
    | nil => rfl
    | cons a t =>
      have hne : (List.reverse (a :: t)).isEmpty = false := by
        cases h : List.reverse (a :: t) with
        | nil => exact absurd (List.reverse_eq_nil_iff.1 h) (by simp)
        | cons _ _ => rfl
      simp only [fieldsAux, List.isEmpty_cons, Bool.false_eq_true, if_false, List.modifyHead,
        List.append_nil, List.filter, hne, Bool.not_false]
  | cons c cs ih =>
    intro cur
    rw [List.splitOnP_cons]
    by_cases hc : isSpace c = true
    · rw [if_pos hc]
      have hnil := ih []
      have hid : (List.splitOnP isSpace cs).modifyHead ([].reverse ++ ·) =
          List.splitOnP isSpace cs := by
        cases List.splitOnP isSpace cs with
        | nil => rfl
        | cons h t => rfl
      rw [hid] at hnil
      cases cur with
      | nil =>
        simp only [fieldsAux, hc, if_true, List.isEmpty_nil, List.modifyHead, List.reverse_nil,
          List.nil_append, List.filter, Bool.not_true]
        exact hnil
      | cons a t =>
        have hne : (List.reverse (a :: t)).isEmpty = false := by
          cases h : List.reverse (a :: t) with
          | nil => exact absurd (List.reverse_eq_nil_iff.1 h) (by simp)
          | cons _ _ => rfl
        simp only [fieldsAux, hc, if_true, List.isEmpty_cons, Bool.false_eq_true, if_false,
          List.modifyHead, List.append_nil, List.filter, hne, Bool.not_false]
        rw [hnil]
    · rw [if_neg hc]
      have hstep : fieldsAux (c :: cs) cur = fieldsAux cs (c :: cur) := by
        simp only [fieldsAux, hc, Bool.false_eq_true, if_false]
      rw [hstep, ih (c :: cur), List.modifyHead_modifyHead]
      congr 2
      funext x
      simp only [Function.comp, List.reverse_cons, List.append_assoc, List.singleton_append]

/-- The model of `strings.Fields` gives the whitespace-delimited fields. -/
theorem Fields_eq_whitespaceFields (s : Str) : Fields s = whitespaceFields s := by
  unfold Fields whitespaceFields
  rw [fieldsAux_eq s []]
  congr 1
  cases List.splitOnP isSpace s with
  | nil => rfl
  | cons h t => rfl

/-! ## What `getProcessInfo` returns, in terms of the two files it reads -/

/-- The record returned by `getProcessInfo`, in terms of what the two reads give. -/
theorem getProcessInfo_of_reads (fs : FileSystem) (rootDir : Str) (pid : Int) :
    getProcessInfo fs rootDir pid =
      .ok { PID := pid
            PPID :=
              match fs.ReadFile (statPath rootDir pid) with
              | some data =>
                if (Fields data).length ≥ 4 then
                  match Atoi ((Fields data).getD 3 []) with
                  | .ok ppid => ppid
                  | .error _ => 0
                else 0
              | none => 0
            Command :=
              match fs.ReadFile (commPath rootDir pid) with
              | some data => TrimSpace data
              | none => []
            ContainerID := [] } := by
  unfold getProcessInfo commPath statPath
  dsimp only
  generalize fs.ReadFile
    ("/".toList ++ rootDir ++ "/".toList ++ formatInt pid ++ "/comm".toList) = c
  generalize fs.ReadFile
    ("/".toList ++ rootDir ++ "/".toList ++ formatInt pid ++ "/stat".toList) = s
  cases c <;> cases s with
  | none => rfl
  | some data =>
    dsimp only
    split
    · split <;> rfl
    · rfl

/-- The result of `getProcessInfo` depends on the file system only through the two files at
`commPath` and `statPath`. -/
theorem getProcessInfo_congr (fs1 fs2 : FileSystem) (rootDir : Str) (pid : Int)
    (hcomm : fs1.ReadFile (commPath rootDir pid) = fs2.ReadFile (commPath rootDir pid))
    (hstat : fs1.ReadFile (statPath rootDir pid) = fs2.ReadFile (statPath rootDir pid)) :
    getProcessInfo fs1 rootDir pid = getProcessInfo fs2 rootDir pid := by
  rw [getProcessInfo_of_reads, getProcessInfo_of_reads, hcomm, hstat]

theorem getD_of_get? (fields : List Str) (field : Str) (h : fields.get? 3 = some field) :
    4 ≤ fields.length ∧ fields.getD 3 [] = field := by
  constructor
  · by_contra hlt
    rw [List.get?_eq_none.2 (by omega)] at h
    exact absurd h (by simp)
  · rw [List.getD_eq_getElem?_getD, ← List.get?_eq_getElem?, h]
    rfl

/-- The record returned by `getProcessInfo`, relative to the two files at the paths the code
builds, `commPath` and `statPath` (the root with a slash put in front of it). For every PID
and every content, or absence, of these two files the call returns no error and a
`PodProcess` with that PID. Its `Command` is the content of the file at `commPath` without
leading and trailing white space, and is empty when that file is unreadable. Its `PPID` is the
integer value of the fourth whitespace-delimited field of the content of the file at
`statPath` when that file is readable, has at least four fields and that field parses as an
integer; in every other case it is 0. Whether these two files are the name and status files
of the process is a separate matter, settled below. -/
theorem getProcessInfo_result (fs : FileSystem) (rootDir : Str) (pid : Int) :
    ∃ process : PodProcess,
      getProcessInfo fs rootDir pid = .ok process ∧ process.PID = pid ∧
      (∀ data, fs.ReadFile (commPath rootDir pid) = some data →
        IsWhitespaceTrim process.Command data ∧ process.Command = TrimSpace data) ∧
      (fs.ReadFile (commPath rootDir pid) = none → process.Command = []) ∧
      (∀ data field ppid, fs.ReadFile (statPath rootDir pid) = some data →
        (whitespaceFields data).get? 3 = some field → Atoi field = .ok ppid →
        process.PPID = ppid) ∧
      (fs.ReadFile (statPath rootDir pid) = none → process.PPID = 0) ∧
      (∀ data, fs.ReadFile (statPath rootDir pid) = some data →
        (whitespaceFields data).length < 4 → process.PPID = 0) ∧
      (∀ data field err, fs.ReadFile (statPath rootDir pid) = some data →
        (whitespaceFields data).get? 3 = some field → Atoi field = .error err →
        process.PPID = 0) := by
  refine ⟨_, getProcessInfo_of_reads fs rootDir pid, rfl, ?_, ?_, ?_, ?_, ?_, ?_⟩
  · intro data hdata
    simp only [hdata, and_true]
    exact TrimSpace_isWhitespaceTrim data
  · intro hnone
    simp only [hnone]
  · intro data field ppid hdata hfield hatoi
    rw [← Fields_eq_whitespaceFields] at hfield
    obtain ⟨hlen, hget⟩ := getD_of_get? _ _ hfield
    simp only [hdata, ge_iff_le, hlen, if_true, hget, hatoi]
  · intro hnone
    simp only [hnone]
  · intro data hdata hlen
    rw [← Fields_eq_whitespaceFields] at hlen
    have : ¬ (Fields data).length ≥ 4 := by omega
    simp only [hdata, this, if_false]
  · intro data field err hdata hfield hatoi
    rw [← Fields_eq_whitespaceFields] at hfield
    obtain ⟨hlen, hget⟩ := getD_of_get? _ _ hfield
    simp only [hdata, ge_iff_le, hlen, if_true, hget, hatoi]

/-- The record of process 7 on `exampleFS`: the file at `commPath` holds `nginx` followed by
a newline, and the fourth field of the file at `statPath` is `1`. -/
theorem getProcessInfo_result_witness :
    getProcessInfo exampleFS procDir 7 =
      .ok { PID := 7, PPID := 1, Command := "nginx".toList, ContainerID := [] } ∧
    IsWhitespaceTrim "nginx".toList "nginx\n".toList ∧
    (whitespaceFields "7 (nginx) S 1 7 7 0 -1 4194560".toList).get? 3 = some "1".toList := by
  obtain ⟨process, hok, -, hcomm, -, hppid, -⟩ := getProcessInfo_result exampleFS procDir 7
  have hc := hcomm "nginx\n".toList (by rfl)
  have hp := hppid "7 (nginx) S 1 7 7 0 -1 4194560".toList "1".toList 1 (by rfl)
    (by rw [← Fields_eq_whitespaceFields]; rfl) (by rfl)
  have hres : getProcessInfo exampleFS procDir 7 =
      .ok { PID := 7, PPID := 1, Command := "nginx".toList, ContainerID := [] } := by rfl
  have htrim : IsWhitespaceTrim "nginx".toList "nginx\n".toList := by
    have h1 : process.Command = "nginx".toList := hc.2.trans (by rfl)
    rw [← h1]
    exact hc.1
  exact ⟨hres, htrim, by rw [← Fields_eq_whitespaceFields]; rfl⟩

/-! ## C12: the paths of the three files -/

theorem formatInt_head (pid : Int) : ∃ d t, formatInt pid = d :: t ∧ d ≠ '/' := by
  have hdigits : ∀ n : Nat, ∃ d t, Nat.toDigits 10 n = d :: t ∧ d ≠ '/' := by
    intro n
    obtain ⟨hne, hall, -⟩ := toDigits_spec n
    cases h : Nat.toDigits 10 n with
    | nil => exact absurd h hne
    | cons d t =>
      refine ⟨d, t, rfl, ?_⟩
      rintro rfl
      have := hall '/' (h ▸ List.mem_cons_self _ _)
      revert this
      decide
  cases pid with
  | ofNat n => exact hdigits n
  | negSucc n => exact ⟨'-', _, rfl, by decide⟩

/-- A text that starts with `R/d`, `d` not a slash, does not start a text `/R/...`. -/
theorem not_prefix_slash_cons (d : Char) (hd : d ≠ '/') (t w : Str) :
    ∀ (R : Str) (a : Char), a = '/' → ¬ (R ++ '/' :: d :: t) <+: (a :: (R ++ '/' :: w)) := by
  intro R
  induction R with
  | nil =>
    intro a _ h
    rw [List.nil_append, List.nil_append, List.cons_prefix_cons, List.cons_prefix_cons] at h
    exact hd h.2.1
  | cons r R1 ih =>
    intro a ha h
    rw [List.cons_append, List.cons_append, List.cons_prefix_cons] at h
    exact ih r (h.1.trans ha) h.2

theorem processDir_eq (rootDir : Str) (pid : Int) :
    processDir rootDir pid = rootDir ++ '/' :: (formatInt pid ++ ['/']) := by
  unfold processDir
  simp only [List.append_assoc]
  rfl

/-- The control-group file that `FindPodInfoFrom` opens lies in `R/p/`. -/
theorem cgroupPath_in_processDir (rootDir : Str) (pid : Int) :
    HasPrefix (cgroupPath rootDir pid) (processDir rootDir pid) = true := by
  rw [hasPrefix_iff]
  refine ⟨"cgroup".toList, ?_⟩
  unfold processDir cgroupPath
  simp only [List.append_assoc]
  rfl

/-- For no root and no PID does the name file that `getProcessInfo` reads have a path that
starts with `R/p/`. -/
theorem commPath_not_in_processDir (rootDir : Str) (pid : Int) :
    HasPrefix (commPath rootDir pid) (processDir rootDir pid) = false := by
  obtain ⟨d, t, hfmt, hd⟩ := formatInt_head pid
  have hnot : ¬ HasPrefix (commPath rootDir pid) (processDir rootDir pid) = true := by
    rw [hasPrefix_iff, processDir_eq, hfmt]
    have hc : commPath rootDir pid =
        '/' :: (rootDir ++ '/' :: (formatInt pid ++ "/comm".toList)) := by
      unfold commPath
      simp only [List.append_assoc]
      rfl
    rw [hc]
    exact not_prefix_slash_cons d hd _ _ rootDir '/' rfl
  simpa using hnot

/-- For no root and no PID does the status file that `getProcessInfo` reads have a path that
starts with `R/p/`. -/
theorem statPath_not_in_processDir (rootDir : Str) (pid : Int) :
    HasPrefix (statPath rootDir pid) (processDir rootDir pid) = false := by
  obtain ⟨d, t, hfmt, hd⟩ := formatInt_head pid
  have hnot : ¬ HasPrefix (statPath rootDir pid) (processDir rootDir pid) = true := by
    rw [hasPrefix_iff, processDir_eq, hfmt]
    have hc : statPath rootDir pid =
        '/' :: (rootDir ++ '/' :: (formatInt pid ++ "/stat".toList)) := by
      unfold statPath
      simp only [List.append_assoc]
      rfl
    rw [hc]
    exact not_prefix_slash_cons d hd _ _ rootDir '/' rfl
  simpa using hnot

/-- The control-group file opened for an accepted entry is the one at `cgroupPath`. -/
theorem scanEntry_opens_cgroupPath (fs : FileSystem) (rootDir : Str)
    (podMap : GoMap PodInfo) (e : DirEntry) (pid : Int) (hd : e.IsDir = true)
    (ha : Atoi e.Name = .ok pid) :
    scanEntry fs rootDir podMap e =
      match fs.Open (cgroupPath rootDir pid) with
      | none => podMap
      | some lines => scanCgroupLines fs rootDir pid podMap lines :=
  scanEntry_accepted fs rootDir podMap e pid hd ha

/-- C12 fails on the code. With the relative root `testdata` and PID 7, `FindPodInfoFrom`
opens `testdata/7/cgroup`, while `getProcessInfo` reads `/testdata/7/comm` and
`/testdata/7/stat`: the format strings of the latter two start with a slash that the former
does not have. The two paths do not start with `testdata/7/`. On `relativeFS`, where the
directory `testdata/7` holds a name file with `pause` and a status file with parent 1, the
process is discovered with an empty `Command` and `PPID` 0. With the root `/proc` the paths
read are `//proc/7/comm` and `//proc/7/stat`. -/
theorem getProcessInfo_paths_relative_root :
    cgroupPath "testdata".toList 7 = "testdata/7/cgroup".toList ∧
    commPath "testdata".toList 7 = "/testdata/7/comm".toList ∧
    statPath "testdata".toList 7 = "/testdata/7/stat".toList ∧
    HasPrefix (cgroupPath "testdata".toList 7) (processDir "testdata".toList 7) = true ∧
    HasPrefix (commPath "testdata".toList 7) (processDir "testdata".toList 7) = false ∧
    HasPrefix (statPath "testdata".toList 7) (processDir "testdata".toList 7) = false ∧
    relativeFS.ReadFile "testdata/7/comm".toList = some "pause\n".toList ∧
    relativeFS.ReadFile "testdata/7/stat".toList = some "7 (pause) S 1 7 7 0".toList ∧
    getProcessInfo relativeFS "testdata".toList 7 = .ok (bareProcess 7) ∧
    FindPodInfoFrom relativeFS "testdata".toList =
      .ok [("1-2-3-4-5".toList,
        { PodUID := "1-2-3-4-5".toList, Processes := [bareProcess 7] })] ∧
    commPath procDir 7 = "//proc/7/comm".toList ∧
    statPath procDir 7 = "//proc/7/stat".toList := by
  refine ⟨by rfl, by rfl, by rfl, by decide, by decide, by decide, by rfl, by rfl, by rfl,
    by rfl, by rfl, by rfl⟩

/-! ## C11: the name and status files of the process -/

/-- A status line whose process name contains a space: the fourth whitespace-delimited field
is the state letter, `strconv.Atoi` rejects it, and the parent PID that follows is not
reached. -/
theorem fields_of_name_with_space :
    (Fields "15 (my proc) S 1 15 15 0".toList).getD 3 [] = "S".toList ∧
    Atoi "S".toList = .error "invalid syntax" := by
  refine ⟨by rfl, by rfl⟩

/-- C11 fails on the code. On `relativeFS`, with the root `testdata` and PID 7, the name file
of the process, `testdata/7/comm`, holds `pause` followed by a newline, and its status file,
`testdata/7/stat`, holds `7 (pause) S 1 7 7 0`: the whitespace-trimmed name is `pause`, and
the fourth whitespace-delimited field of the status is `1`, which parses as the integer 1.
`getProcessInfo` returns no error and a record with PID 7, but with an empty `Command` and
`PPID` 0, because it reads `/testdata/7/comm` and `/testdata/7/stat`. -/
theorem getProcessInfo_relative_root_record :
    relativeFS.ReadFile (processDir "testdata".toList 7 ++ "comm".toList) =
      some "pause\n".toList ∧
    TrimSpace "pause\n".toList = "pause".toList ∧
    relativeFS.ReadFile (processDir "testdata".toList 7 ++ "stat".toList) =
      some "7 (pause) S 1 7 7 0".toList ∧
    (whitespaceFields "7 (pause) S 1 7 7 0".toList).get? 3 = some "1".toList ∧
    Atoi "1".toList = .ok 1 ∧
    getProcessInfo relativeFS "testdata".toList 7 =
      .ok { PID := 7, PPID := 0, Command := [], ContainerID := [] } ∧
    relativeFS.ReadFile (commPath "testdata".toList 7) = none ∧
    relativeFS.ReadFile (statPath "testdata".toList 7) = none := by
  refine ⟨by rfl, by rfl, by rfl, ?_, by rfl, by rfl, by rfl, by rfl⟩
  rw [← Fields_eq_whitespaceFields]
  rfl

end DecisionMaker
